import Mathlib

/-!
Shallow embedding of the BAF build engine (`src/baf/datatypes.py`,
`src/baf/errors.py`, `src/baf/__init__.py`).

The engine turns a schema of datum *models* (fixed-width integers, byte runs,
records, arrays, optional wrappers, alignment padding) plus a decoded input
tree into a built datum tree that can report sizes, offsets and bytes.

Conventions of the embedding:
* Python exceptions become an `Err` error value threaded through `Except`.
* Python objects of class `DatatypeBase` appearing as schema nodes become the
  inductive `Model`; built instances become the inductive `Tree`.
* Decoded input values (dicts, sequences, ints, strings, byte blobs, `None`,
  and datum objects appearing inside data, e.g. in `(Subtype, payload)`
  refinement tuples) become the inductive `Data`.
* User setter methods (`set_<field>` on a `Block` subclass) are kept outside
  the schema, in a `SetterEnv` mapping a block class id and field name to a
  Lean function; this mirrors `getattr(self, 'set_' + name, None)`.
* Machine integers are `Int`/`Nat`; `int.to_bytes` is modelled explicitly.
* Unbounded recursion through user-supplied refinement models is fuelled; the
  fuel-exhaustion outcome `Err.fuelOut` is an artefact of the embedding and is
  proved unreachable where the claims need it.
* The `File` datatype (`datatypes.py` lines 335-362) performs file I/O and is
  outside the pure fragment; no claim mentions it and it is not embedded.
-/

namespace Baf

/-- Error taxonomy from `src/baf/errors.py`. `internal` covers
`InternalError` and also interpreter-level failures (e.g. `ZeroDivisionError`)
that are not `BAFError`s; `fuelOut` is the embedding's fuel marker. -/
inductive Err where
  | internal : Err
  | fuelOut : Err
  | spec : String → Err
  | buildE : String → Err
  | validation : String → Err
  | dependency : String → Err
deriving DecidableEq

/-- The nine primitive integer classes (`U8` .. `I32`,
`datatypes.py` lines 227-299). -/
inductive PrimKind where
  | u8 | u16 | u32 | s8 | s16 | s32 | i8 | i16 | i32
deriving DecidableEq

/-- `_bit_size` of a primitive class. -/
def primBits : PrimKind → Nat
  | .u8 | .s8 | .i8 => 8
  | .u16 | .s16 | .i16 => 16
  | .u32 | .s32 | .i32 => 32

/-- `_min` of a primitive class (`S*._min = -2**w // 2`, `I*` uses the signed
minimum). -/
def primMin : PrimKind → Int
  | .u8 | .u16 | .u32 => 0
  | .s8 | .i8 => -(2 ^ 8 / 2)
  | .s16 | .i16 => -(2 ^ 16 / 2)
  | .s32 | .i32 => -(2 ^ 32 / 2)

/-- `_max` of a primitive class (`U*._max = 2**w - 1`,
`S*._max = 2**w // 2 - 1`, `I*` uses the unsigned maximum). -/
def primMax : PrimKind → Int
  | .u8 | .i8 => 2 ^ 8 - 1
  | .u16 | .i16 => 2 ^ 16 - 1
  | .u32 | .i32 => 2 ^ 32 - 1
  | .s8 => 2 ^ 8 / 2 - 1
  | .s16 => 2 ^ 16 / 2 - 1
  | .s32 => 2 ^ 32 / 2 - 1

mutual

/-- A schema node: a `DatatypeBase` object used as a model.
`blockM cls attrs default`: a `Block` subclass instance; `cls` is the chain of
user class ids from the object's own class up to (excluding) `Block`, `attrs`
is the class `__dict__` in declaration order (`Block._fields` filters it),
`default` is `_default_value`. `arrayM model count generic default` mirrors
`Array.__init__` plus the `_generic_type` resolved at instantiation.
`bytesM size default` mirrors `Bytes.__init__`. `alignM a` stores the
alignment amount (an `Align(datum)` argument is already reduced to
`datum.size()` by `Align.__init__`). -/
inductive Model where
  | primM : PrimKind → Option Data → Model
  | bytesM : Option Int → Option Data → Model
  | blockM : List Nat → List (String × Attr) → Option Data → Model
  | arrayM : Option Model → Option Int → Option Model → Option Data → Model
  | optionalM : Model → Model
  | alignM : Int → Model

/-- A value stored in a `Block` subclass `__dict__`: either a datum model or
any other Python value (methods, plain constants), which `Block._fields`
ignores. -/
inductive Attr where
  | modelA : Model → Attr
  | plainA : Attr

/-- A decoded input value. `tupleV` is a Python tuple; `modelV` is a datum
model object occurring inside data (as in a `(Subtype, payload)` refinement
tuple); `builtV m t` is an already-built datum instance of model `m` whose
built content is `t`. -/
inductive Data where
  | intV : Int → Data
  | strV : String → Data
  | bytesV : List Nat → Data
  | listV : List Data → Data
  | tupleV : List Data → Data
  | dictV : List (String × Data) → Data
  | noneV : Data
  | modelV : Model → Data
  | builtV : Model → Tree → Data

/-- A built datum instance. `bytesT` keeps the declared `_size` parameter and
the stored `_data`; `alignT a pad` keeps `_align_size` and the `_pad_amount`
frozen by `Align._process`; containers keep their items in canonical order. -/
inductive Tree where
  | primT : PrimKind → Int → Tree
  | bytesT : Option Int → List Nat → Tree
  | blockT : List Nat → List Tree → Tree
  | arrayT : List Tree → Tree
  | optionalT : Option Tree → Tree
  | alignT : Int → Nat → Tree

end

/-- Python classes relevant to `isinstance` checks in the engine: the
primitive leaf classes, `_Primitive`, `Bytes`, user `Block` subclasses
(`userC`), and the framework bases. -/
inductive PyType where
  | primC : PrimKind → PyType
  | primAbs : PyType
  | bytesC : PyType
  | userC : Nat → PyType
  | blockC : PyType
  | arrayC : PyType
  | optionalC : PyType
  | alignC : PyType
  | containerC : PyType
  | datatypeC : PyType
  | genDatatypeC : PyType
  | datatypeBaseC : PyType
deriving DecidableEq

/-- Method resolution order of a model object's class, following the source
hierarchy: `U8.. < _Primitive < Datatype`, `Bytes < Datatype`,
user blocks `< Block < Container < Datatype`, `Array < Container < Datatype`,
`Optional < DatatypeBase`, `Align < GenDatatype < DatatypeBase`, and
everything `< DatatypeBase`. -/
def Model.mro : Model → List PyType
  | .primM k _ => [.primC k, .primAbs, .datatypeC, .datatypeBaseC]
  | .bytesM _ _ => [.bytesC, .datatypeC, .datatypeBaseC]
  | .blockM cls _ _ =>
      cls.map PyType.userC ++ [.blockC, .containerC, .datatypeC, .datatypeBaseC]
  | .arrayM _ _ _ _ => [.arrayC, .containerC, .datatypeC, .datatypeBaseC]
  | .optionalM _ => [.optionalC, .datatypeBaseC]
  | .alignM _ => [.alignC, .genDatatypeC, .datatypeBaseC]

/-- `type(model)`: the head class of the model object. -/
def Model.pytype : Model → PyType
  | .blockM cls _ _ => (cls.head?.map PyType.userC).getD .blockC
  | m => m.mro.headD .datatypeBaseC

/-- `isinstance(proposed, type(declared))`: the declared model's own class
occurs in the proposed model's mro. -/
def subtypeB (declared proposed : Model) : Bool :=
  proposed.mro.contains declared.pytype

/-- `isinstance(model, Datatype)`: every embedded model except `Optional`
(direct `DatatypeBase` subclass) and `Align` (a `GenDatatype`). -/
def isDatatypeModel : Model → Bool
  | .optionalM _ => false
  | .alignM _ => false
  | _ => true

/-- `model._default_value` (only `Datatype` subclasses take a `default`
keyword; `Optional` and `Align` have none). -/
def modelDefault : Model → Option Data
  | .primM _ d => d
  | .bytesM _ d => d
  | .blockM _ _ d => d
  | .arrayM _ _ _ d => d
  | .optionalM _ => none
  | .alignM _ => none

/-- `isinstance(data, Sequence)` over decoded values: lists, tuples, strings
and byte blobs are Python `Sequence`s; dicts, ints, `None` and datum objects
are not. -/
def isSeq : Data → Bool
  | .listV _ => true
  | .tupleV _ => true
  | .strV _ => true
  | .bytesV _ => true
  | _ => false

/-- The elements a `Sequence` yields: characters of a string are 1-character
strings, elements of a byte blob are ints. -/
def seqElems : Data → List Data
  | .listV xs => xs
  | .tupleV xs => xs
  | .strV s => s.data.map (fun c => .strV (String.mk [c]))
  | .bytesV bs => bs.map (fun b => .intV (b : Int))
  | _ => []

/-- `len(data)` for sequence data. -/
def seqLen (d : Data) : Nat := (seqElems d).length

/-- `data is None or isinstance(data, Sequence) and len(data) == 0`
(`Optional._build`, line 556). -/
def isEmptyData (d : Data) : Bool :=
  match d with
  | .noneV => true
  | d => isSeq d && seqLen d == 0

/-- First-match lookup in a decoded dict (`name in data` / `data[name]`). -/
def dictLookup : List (String × Data) → String → Option Data
  | [], _ => none
  | (k, v) :: kvs, n => if k = n then some v else dictLookup kvs n

/-- Big-endian base-256 digits of `n`, `len` bytes (the layout produced by
CPython `int.to_bytes` with its default `byteorder='big'`). -/
def natToBE : Nat → Nat → List Nat
  | 0, _ => []
  | len + 1, n => natToBE len (n / 256) ++ [n % 256]

/-- `v.to_bytes(len, signed=v < 0)` (`_Primitive._get_bytes`, line 219):
two's-complement big-endian; CPython's `byteorder` parameter defaults to
`'big'`. In-range values are guaranteed by `_Primitive._preprocess`. -/
def intToBytes (len : Nat) (v : Int) : List Nat :=
  natToBE len (v.emod (2 ^ (8 * len))).toNat

/-- `(align - offset % align) % align` with Python `%` semantics
(`Align.size`, lines 608-611); Python `%` on ints is `Int.fmod`. The result
is cast to `Nat`; for the `align >= 2` values that pass `Align._preprocess`
the value is provably nonnegative. -/
def alignPadAt (off : Nat) (a : Int) : Nat :=
  ((a - (off : Int).fmod a).fmod a).toNat

mutual

/-- `get_bytes()` on a built tree: primitives serialize via `int.to_bytes`
(line 219), byte runs return `_data` verbatim (line 332), containers join
their items' bytes (`Container._get_bytes`, line 164), an absent `Optional`
yields `bytes(0)` (line 572), `Align` yields `bytes(self._pad_amount)` - the
pad frozen at build time (lines 603-606). -/
def treeBytes : Tree → List Nat
  | .primT k v => intToBytes (primBits k / 8) v
  | .bytesT _ data => data
  | .blockT _ items => treeBytesList items
  | .arrayT items => treeBytesList items
  | .optionalT none => []
  | .optionalT (some t) => treeBytes t
  | .alignT _ pad => List.replicate pad 0

/-- `b''.join(item.get_bytes() for item in items)`. -/
def treeBytesList : List Tree → List Nat
  | [] => []
  | t :: ts => treeBytes t ++ treeBytesList ts

end

mutual

/-- `size()` of a built datum whose offset inside its parent is `off`:
primitives report `_bit_size // 8` (line 208), byte runs report the declared
`_size` or `len(_data)` (lines 324-329), containers sum their items
(`Container.size`, line 153; each item's own `size()` call resolves its
offset against the same parent, which is the running accumulator), `Optional`
delegates to its item (line 569), and `Align` recomputes
`(align - offset % align) % align` from the current offset on every call
(lines 608-611). -/
def sizeAt : Nat → Tree → Nat
  | _, .primT k _ => primBits k / 8
  | _, .bytesT (some n) _ => n.toNat
  | _, .bytesT none data => data.length
  | _, .blockT _ items => sizeList 0 items
  | _, .arrayT items => sizeList 0 items
  | off, .optionalT (some t) => sizeAt off t
  | _, .optionalT none => 0
  | off, .alignT a _ => alignPadAt off a

/-- `sum(item.size() for item in items)` with the running offset each item
would report from `offset_of`. -/
def sizeList : Nat → List Tree → Nat
  | _, [] => 0
  | off, t :: ts =>
      let s := sizeAt off t
      s + sizeList (off + s) ts

end

/-- `Container.offset_of` (lines 155-161): scan the items accumulating
`item.size()`; position `i` stands for the identity test `item is target`;
falling off the end raises `InternalError`. -/
def offsetOfAux : Nat → List Tree → Nat → Except Err Nat
  | _, [], _ => .error .internal
  | off, _ :: _, 0 => .ok off
  | off, t :: ts, i + 1 => offsetOfAux (off + sizeAt off t) ts i

/-- Offset reported for the `i`-th child of a container
(`DatatypeBase.offset`, lines 64-70, delegates to the parent's
`offset_of`). -/
def offsetOfIdx (items : List Tree) (i : Nat) : Except Err Nat :=
  offsetOfAux 0 items i

/-- `len()` of a built datum: `Array.__len__` (lines 533-536) returns the
item count (after build, `_item_count` equals the number of items); `len()`
is not defined for the other datatypes, rendered as 0. -/
def treeLen : Tree → Nat
  | .arrayT items => items.length
  | _ => 0

/-- `_Primitive._preprocess` (lines 200-205): the input must be exactly an
int (`type(data) is not int`), and must lie in `[_min, _max]`; violations
raise `ValidationError`. -/
def primPreprocess (k : PrimKind) (d : Data) : Except Err Int :=
  match d with
  | .intV v =>
      if v < primMin k || primMax k < v then
        .error (.validation "Value outside of range")
      else .ok v
  | _ => .error (.validation "Expected int")

/-- `Bytes._preprocess` (lines 315-322): input must be `bytes`/`bytearray`
(both rendered as `bytesV`); a declared size must match the input length.
The `isinstance(self._size, int | None)` guard cannot fail in the embedding
because the size parameter is typed. -/
def bytesPreprocess (sz : Option Int) (d : Data) : Except Err (List Nat) :=
  match d with
  | .bytesV bs =>
      match sz with
      | some n =>
          if (bs.length : Int) ≠ n then
            .error (.validation "Byte length does not match declared size")
          else .ok bs
      | none => .ok bs
  | _ => .error (.validation "Expected bytes type")

/-- `Array._preprocess` (lines 483-499): resolve the element model (explicit
model, else the generic type argument, else `SpecError`); the input must be a
`Sequence`; with no declared count the count becomes the input length; a
negative declared count is `SpecError`; a declared count different from the
input length is `ValidationError`. Returns the resolved element model, the
resolved count and the input elements. (The `isinstance(self._model,
DatatypeBase)` guard cannot fail in the embedding: every `Model` is a
datatype object.) -/
def arrayPreprocess (mo : Option Model) (cnt : Option Int) (gen : Option Model)
    (d : Data) : Except Err (Model × Nat × List Data) :=
  match (match mo with | some m => some m | none => gen) with
  | none => .error (.spec "Array has no valid type argument")
  | some em =>
      if isSeq d then
        match cnt with
        | none => .ok (em, seqLen d, seqElems d)
        | some n =>
            if n < 0 then .error (.spec "Array item count cannot be less than 0")
            else if (seqLen d : Int) ≠ n then
              .error (.validation "Item count does not match declared count")
            else .ok (em, n.toNat, seqElems d)
      else .error (.validation "Expected Sequence type")

/-- `data[0]` of a 2-tuple is a datum object (`isinstance(proposed_model,
DatatypeBase)`, line 184): true both for models and for built instances. -/
def isDatumObj : Data → Bool
  | .modelV _ => true
  | .builtV _ _ => true
  | _ => false

/-- `Container._is_packed_type` (lines 178-186): a 2-element tuple whose
first element is a `DatatypeBase` object. -/
def isPackedType : Data → Bool
  | .tupleV [d0, _] => isDatumObj d0
  | _ => false

/-- Message of the refinement-failure `BuildError` (line 175). -/
def notChildMsg : String :=
  "Dynamically-resolved Datatype is not a child of the declared model"

/-- `Container._unpack_type` (lines 166-176): a packed tuple proposes its
first element as the refined model, provided it is an instance of the
declared model's class; otherwise `BuildError`. Any other data is returned
untouched with the declared model. The `Bool` records whether the proposed
object was an already-built datum (in which case the subsequent
`instantiate` raises `BuildError`, line 75-76). -/
def unpackType (model : Model) (d : Data) : Except Err (Model × Bool × Data) :=
  match d with
  | .tupleV [.modelV m, payload] =>
      if subtypeB model m then .ok (m, false, payload)
      else .error (.buildE notChildMsg)
  | .tupleV [.builtV m _, payload] =>
      if subtypeB model m then .ok (m, true, payload)
      else .error (.buildE notChildMsg)
  | _ => .ok (model, false, d)

/-- `name.startswith('_')`. -/
def startsUnderscore (s : String) : Bool :=
  match s.data with
  | [] => false
  | c :: _ => c == '_'

/-- `Block._fields` (lines 432-434): the class `__dict__` entries whose name
does not start with an underscore and whose value is a datum model, in
declaration order. -/
def blockFields (attrs : List (String × Attr)) : List (String × Model) :=
  attrs.filterMap fun kv =>
    match kv with
    | (k, .modelA m) => if startsUnderscore k then none else some (k, m)
    | (_, .plainA) => none

/-- The state of one `_BlockItem` (lines 365-373): `tree` is the built datum
installed on the parent once `done`. -/
structure BItem where
  name : String
  model : Model
  data : Data
  setterDone : Bool
  done : Bool
  tree : Option Tree

/-- A user setter (`set_<name>` method): receives the record's raw input
(`base_data`) and can consult the record's current children (for sizes,
offsets or values); it returns the field's data or raises (typically
`DependencyError`). -/
def Setter : Type :=
  Data → List BItem → Except Err Data

/-- The setter methods of every `Block` subclass, keyed by the class id and
field name (`getattr(self, 'set_' + name, None)`). -/
def SetterEnv : Type :=
  Nat → String → Option Setter

/-- Sum of the default sizes of a sequence of models, accumulating offsets;
`ds` is the default-size query for one model. -/
def defaultSizeSeq (ds : Nat → Model → Except Err Nat) :
    Nat → List Model → Except Err Nat
  | _, [] => .ok 0
  | off, m :: ms =>
      match ds off m with
      | .error e => .error e
      | .ok s =>
          match defaultSizeSeq ds (off + s) ms with
          | .error e => .error e
          | .ok rest => .ok (s + rest)

/-- Size reported by a datum model instantiated with defaults but not yet
built, at offset `off` in its parent - what `get_items(True)` exposes for
missing children (`Block.get_items` line 447-450, `Array.get_items` lines
520-531). Primitives and sized byte runs have static sizes; an unsized byte
run raises `DependencyError` (line 328); a block sums its (default) fields;
an unbuilt array with a declared count sums that many default element
instances, without a count it raises `DependencyError` (line 523), and
without a model it raises `InternalError` (line 530); an unbuilt `Optional`
raises `DependencyError` (line 568); an `Align` computes its pad from the
current offset (lines 608-611; an alignment of 0 would raise
`ZeroDivisionError`, rendered `internal`, and a negative alignment would
produce a negative pad, which the `Nat` offset model renders `internal` as
well - both are outside every claim). Fuelled because a default block
instance recurses through its field models. -/
def defaultSizeAt : Nat → Nat → Model → Except Err Nat
  | 0, _, _ => .error .fuelOut
  | fuel + 1, off, m =>
    match m with
    | .primM k _ => .ok (primBits k / 8)
    | .bytesM (some n) _ => if n < 0 then .error .internal else .ok n.toNat
    | .bytesM none _ => .error (.dependency "Size of Bytes is not yet known")
    | .blockM _ attrs _ =>
        defaultSizeSeq (fun o m2 => defaultSizeAt fuel o m2) off
          ((blockFields attrs).map fun nm => nm.2)
    | .arrayM mo cnt _ _ =>
        match cnt with
        | none => .error (.dependency "Cannot get items of un-built Array with unknown size")
        | some n =>
            match mo with
            | none => .error .internal
            | some em =>
                defaultSizeSeq (fun o m2 => defaultSizeAt fuel o m2) off
                  (List.replicate n.toNat em)
    | .optionalM _ => .error (.dependency "Cannot get size of Optional before it is built")
    | .alignM a => if a ≤ 0 then .error .internal else .ok (alignPadAt off a)
termination_by structural fuel => fuel

/-- Size a block child currently reports during the resolution loop: built
children report their built size, unresolved children report their model's
default-instance size. -/
def estSizeAt (fuel off : Nat) (it : BItem) : Except Err Nat :=
  match it.tree with
  | some t => .ok (sizeAt off t)
  | none => defaultSizeAt fuel off it.model

/-- `offset_of` against the mid-build record (`Container.offset_of` over
`get_items(True)`): accumulate the current sizes of the items preceding
index `i`. -/
def offEstimate (fuel : Nat) : Nat → List BItem → Nat → Except Err Nat
  | _, [], _ => .error .internal
  | off, _ :: _, 0 => .ok off
  | off, it :: its, i + 1 =>
      match estSizeAt fuel off it with
      | .error e => .error e
      | .ok s => offEstimate fuel (off + s) its i

/-- Message of the cyclical-dependency `BuildError`
(`Block._process`, lines 429-430). -/
def cyclMsg (names : List String) : String :=
  "Could not resolve dependencies. Check for cyclical dependencies in: " ++
    String.intercalate ", " names

/-- Names of the entries not yet resolved. -/
def undoneNames (its : List BItem) : List String :=
  (its.filter fun it => !it.done).map fun it => it.name

/-- Number of entries not yet resolved. -/
def undoneCount (its : List BItem) : Nat :=
  (its.filter fun it => !it.done).length

/-- The tail of `_BlockItem.build` (lines 383-387) once the setter has run:
resolve a possibly packed type, instantiate it (an already-built proposed
datum makes `instantiate` raise `BuildError`, lines 75-76) and build it with
the item's data; `bm` is the recursive model build, `ctx`/`i` locate the item
inside its record for offset queries (`offEstimate`). Returns the updated
item and the raised error, if any. -/
def attemptRest (bm : Except Err Nat → Model → Data → Except Err Tree)
    (fuel : Nat) (ctx : List BItem) (i : Nat) (it : BItem) : BItem × Option Err :=
  match unpackType it.model it.data with
  | .error e => (it, some e)
  | .ok (m', fromBuilt, d') =>
      if fromBuilt then
        (it, some (.buildE "Attempted to instantiate from a datum that is building or already built"))
      else
        match bm (offEstimate fuel 0 ctx i) m' d' with
        | .error e => (it, some e)
        | .ok t => ({ it with done := true, tree := some t }, none)

/-- The setter stage of `_BlockItem.build` (lines 376-378): if the field has
a `set_<name>` method that has not yet succeeded, call it with the record's
raw input; on success cache its result in `data` and set `setter_done`; a
raising setter leaves the entry untouched. -/
def setterStep (env : SetterEnv) (clsHead : Nat) (base : Data) (ctx : List BItem)
    (it : BItem) : Except Err BItem :=
  match env clsHead it.name, it.setterDone with
  | some f, false =>
      match f base ctx with
      | .error e => .error e
      | .ok d => .ok { it with data := d, setterDone := true }
  | _, _ => .ok it

/-- `_BlockItem.build` (lines 375-387): run the setter once if present (its
result is cached via `setter_done` even when the subsequent build raises; a
raising setter leaves the entry unchanged); a value that is already a built
datum of the declared field type is installed directly; otherwise the packed
type protocol resolves the model and the child is instantiated and built.
The `isinstance(self.data, type(self.model))` check (line 379) is modelled
for built datum objects (`builtV`); a bare unbuilt model object of the right
class would also satisfy it in CPython and be installed unbuilt (its
serialization later raises), a pathological input outside every claim. -/
def attemptItem (bm : Except Err Nat → Model → Data → Except Err Tree)
    (env : SetterEnv) (fuel : Nat) (clsHead : Nat) (base : Data)
    (ctx : List BItem) (i : Nat) (it : BItem) : BItem × Option Err :=
  match setterStep env clsHead base ctx it with
  | .error e => (it, some e)
  | .ok it1 =>
      match it1.data with
      | .builtV m t =>
          if subtypeB it1.model m then
            ({ it1 with done := true, tree := some t }, none)
          else attemptRest bm fuel ctx i it1
      | _ => attemptRest bm fuel ctx i it1

/-- One attempt of the resolution loop on entry `i`: the updated entry is
written back at its position. -/
def buildBItem (bm : Except Err Nat → Model → Data → Except Err Tree)
    (env : SetterEnv) (fuel : Nat) (clsHead : Nat) (base : Data)
    (items : List BItem) (i : Nat) : List BItem × Option Err :=
  match items[i]? with
  | none => (items, some .internal)
  | some it =>
      let r := attemptItem bm env fuel clsHead base items i it
      (items.set i r.1, r.2)

/-- One full pass of the resolution loop (`for item in blockitems`, lines
416-426), starting at index `i` with `n` entries left to visit: done entries
are skipped, a `DependencyError` leaves the entry for a later pass, any other
error aborts the pass, and `prog` records whether some entry resolved. -/
def buildPassAux (attempt : List BItem → Nat → List BItem × Option Err) :
    Nat → List BItem → Nat → Bool → List BItem × Bool × Option Err
  | 0, items, _, prog => (items, prog, none)
  | n + 1, items, i, prog =>
      match items[i]? with
      | none => (items, prog, none)
      | some it =>
          if it.done then buildPassAux attempt n items (i + 1) prog
          else
            match attempt items i with
            | (its, none) => buildPassAux attempt n its (i + 1) true
            | (its, some (.dependency _)) => buildPassAux attempt n its (i + 1) prog
            | (its, some e) => (its, prog, some e)

/-- One full pass over all entries. -/
def buildPass (attempt : List BItem → Nat → List BItem × Option Err)
    (items : List BItem) : List BItem × Bool × Option Err :=
  buildPassAux attempt items.length items 0 false

/-- The fix-point loop of `Block._process` (lines 414-430): while some entry
is unresolved, run a pass; a pass that aborts with an error propagates it; a
pass that resolves nothing raises the cyclical-dependency `BuildError`
naming every unresolved entry; otherwise loop. The loop in the source is
unbounded; the embedding counts passes and returns `none` when the budget
runs out - `buildLoopO_stable` shows a budget above the number of
unresolved entries is never exhausted. -/
def buildLoopO (attempt : List BItem → Nat → List BItem × Option Err) :
    Nat → List BItem → Option (Except Err (List BItem))
  | 0, _ => none
  | b + 1, items =>
      if items.all fun it => it.done then some (.ok items)
      else
        match buildPass attempt items with
        | (_, _, some e) => some (.error e)
        | (its, true, none) => buildLoopO attempt b its
        | (its, false, none) =>
            some (.error (.buildE (cyclMsg (undoneNames its))))

/-- Field scan of `Block._preprocess` (lines 439-444): report the first
declared field that is neither a generator/`Optional`, nor defaulted, nor
present in the input, nor covered by a setter. -/
def preflightFields (env : SetterEnv) (clsHead : Nat) (kvs : List (String × Data)) :
    List (String × Model) → Option Err
  | [] => none
  | (n, m) :: fs =>
      if (!isDatatypeModel m) || (modelDefault m).isSome then
        preflightFields env clsHead kvs fs
      else if (dictLookup kvs n).isSome || (env clsHead n).isSome then
        preflightFields env clsHead kvs fs
      else some (.validation ("No setter or dict value found for " ++ n))

/-- `Block._preprocess` (lines 436-445): the input must be a dict; every
declared field must either be a generator (`GenDatatype`) or `Optional`, or
carry a non-null default, or appear in the input, or have a setter;
otherwise `ValidationError`. -/
def blockPreflight (env : SetterEnv) (clsHead : Nat)
    (fields : List (String × Model)) (d : Data) :
    Except Err (List (String × Data)) :=
  match d with
  | .dictV kvs =>
      match preflightFields env clsHead kvs fields with
      | some e => .error e
      | none => .ok kvs
  | _ => .error (.validation "Expected dict")

/-- Initial `_BlockItem` list (`Block._process`, lines 402-412): data is
prepopulated from the input dict, else from the model's default. -/
def initItems (fields : List (String × Model)) (kvs : List (String × Data)) :
    List BItem :=
  fields.map fun nm =>
    { name := nm.1
      model := nm.2
      data := (dictLookup kvs nm.1).getD ((modelDefault nm.2).getD .noneV)
      setterDone := false
      done := false
      tree := none }

/-- Building one array element (`Array._process`, lines 505-517): an element
that is already a built datum of the element type is appended unchanged
(the `isinstance(data_item, type(self._model))` check, line 507, modelled
for built datum objects as in `attemptItem`); otherwise the packed type
protocol applies and a child is instantiated and built. A child's `offset()`
query cannot be answered during `Array._process` (`self._items` is still
empty, so `offset_of` cannot find the child and raises `InternalError`),
hence the `internal` offset context. -/
def buildElem (bm : Except Err Nat → Model → Data → Except Err Tree)
    (em : Model) (d : Data) : Except Err Tree :=
  match d with
  | .builtV m t =>
      if subtypeB em m then .ok t
      else
        match unpackType em d with
        | .error e => .error e
        | .ok (m', fromBuilt, d') =>
            if fromBuilt then
              .error (.buildE "Attempted to instantiate from a datum that is building or already built")
            else bm (.error .internal) m' d'
  | _ =>
      match unpackType em d with
      | .error e => .error e
      | .ok (m', fromBuilt, d') =>
          if fromBuilt then
            .error (.buildE "Attempted to instantiate from a datum that is building or already built")
          else bm (.error .internal) m' d'

/-- All array elements, in order. -/
def buildElems (bm : Except Err Nat → Model → Data → Except Err Tree)
    (em : Model) : List Data → Except Err (List Tree)
  | [] => .ok []
  | d :: ds =>
      match buildElem bm em d with
      | .error e => .error e
      | .ok t =>
          match buildElems bm em ds with
          | .error e => .error e
          | .ok ts => .ok (t :: ts)

/-- Building a datum from a model and input data (`DatatypeBase.build` →
`_build` → preprocess/process of each variant). `offE` is the answer the
datum would get from `self.offset()` - only `Align` consults it (lines
608-611); a record's fields receive offsets computed against the record
itself, and an array element's or optional item's query fails with
`InternalError` as in the source. The fuel bounds recursion through
user-proposed refinement models; a block's pass budget `items.length + 1` is
justified by `buildLoopO_stable` (the source loop is unbounded but every
pass must resolve an entry or raise). -/
def buildModel (env : SetterEnv) : Nat → Except Err Nat → Model → Data →
    Except Err Tree
  | 0, _, _, _ => .error .fuelOut
  | fuel + 1, offE, m, d =>
      match m with
      | .primM k _ =>
          match primPreprocess k d with
          | .error e => .error e
          | .ok v => .ok (.primT k v)
      | .bytesM sz _ =>
          match bytesPreprocess sz d with
          | .error e => .error e
          | .ok bs => .ok (.bytesT sz bs)
      | .blockM cls attrs _ =>
          let fields := blockFields attrs
          match blockPreflight env (cls.headD 0) fields d with
          | .error e => .error e
          | .ok kvs =>
              let items := initItems fields kvs
              match
                buildLoopO
                  (buildBItem (fun o m' d' => buildModel env fuel o m' d') env
                    fuel (cls.headD 0) d)
                  (items.length + 1) items
              with
              | none => .error .internal
              | some (.error e) => .error e
              | some (.ok its) =>
                  .ok (.blockT cls (its.map fun it => it.tree.getD (.blockT [] [])))
      | .arrayM mo cnt gen _ =>
          match arrayPreprocess mo cnt gen d with
          | .error e => .error e
          | .ok (em, _, elems) =>
              match buildElems (fun o m' d' => buildModel env fuel o m' d') em elems with
              | .error e => .error e
              | .ok ts => .ok (.arrayT ts)
      | .optionalM im =>
          if isDatatypeModel im then
            if isEmptyData d then .ok (.optionalT none)
            else
              match buildModel env fuel (.error .internal) im d with
              | .error e => .error e
              | .ok t => .ok (.optionalT (some t))
          else .error (.spec "Optional must wrap a known Datatype")
      | .alignM a =>
          if a < 2 then .error (.spec "Align size must be at least 2")
          else
            match offE with
            | .error e => .error e
            | .ok off => .ok (.alignT a (alignPadAt off a))
termination_by structural fuel => fuel

/-- `baf.build` (`__init__.py`, lines 31-35): instantiate the root model with
no parent (so its `offset()` is 0) and build it with the decoded data. -/
def buildRoot (env : SetterEnv) (fuel : Nat) (m : Model) (d : Data) :
    Except Err Tree :=
  buildModel env fuel (.ok 0) m d

/-- Lifecycle flags of one datum object (`DatatypeBase`, lines 15-20). -/
structure DState where
  isInstance : Bool
  isBuilt : Bool
deriving DecidableEq

/-- `DatatypeBase.build` (lines 33-41): reject non-instances and already-built
datums with `BuildError`, set `_is_built = True`, then delegate to the
variant `_build` hook. A raising hook leaves the flag set: Python has no
rollback. The hook is any variant `_build`/preprocess/process pipeline; none
of them touches the lifecycle flags. -/
def dbuild (hook : Data → Option Err) (st : DState) (d : Data) :
    DState × Option Err :=
  if !st.isInstance then
    (st, some (.buildE "Attempted to build a non-instantiated model"))
  else if st.isBuilt then
    (st, some (.buildE "Attempted to build an already-built datum"))
  else
    ({ st with isBuilt := true }, hook d)

/-- `DatatypeBase.instantiate` (lines 72-88): refuse datums that are building
or already built, otherwise produce a fresh instance copy (the generic-type
plumbing of lines 78-85 has no observable effect in the embedding). -/
def dinstantiate (st : DState) : Except Err DState :=
  if st.isBuilt then
    .error (.buildE "Attempted to instantiate from a datum that is building or already built")
  else .ok { isInstance := true, isBuilt := false }

mutual

/-- Declared-size consistency of byte runs throughout a tree: a built `Bytes`
datum stores a `_size` equal to `len(_data)` (enforced by
`Bytes._preprocess`, lines 320-321). -/
def bytesOkB : Tree → Bool
  | .primT _ _ => true
  | .bytesT none _ => true
  | .bytesT (some n) data => n == (data.length : Int)
  | .blockT _ items => bytesOkList items
  | .arrayT items => bytesOkList items
  | .optionalT none => true
  | .optionalT (some t) => bytesOkB t
  | .alignT _ _ => true

/-- `bytesOkB` over a list of items. -/
def bytesOkList : List Tree → Bool
  | [] => true
  | t :: ts => bytesOkB t && bytesOkList ts

end

mutual

/-- Alignment stability of a tree sitting at offset `off` in its parent:
every `Align` datum's frozen `_pad_amount` equals the pad recomputed by
`Align.size()` at the offset the datum now occupies. This can fail when a
preceding sibling's size estimate changed after the `Align` built. -/
def alignOkB : Nat → Tree → Bool
  | _, .primT _ _ => true
  | _, .bytesT _ _ => true
  | _, .blockT _ items => alignOkList 0 items
  | _, .arrayT items => alignOkList 0 items
  | off, .optionalT (some t) => alignOkB off t
  | _, .optionalT none => true
  | off, .alignT a pad => pad == alignPadAt off a

/-- `alignOkB` over sibling items with their running offsets. -/
def alignOkList : Nat → List Tree → Bool
  | _, [] => true
  | off, t :: ts => alignOkB off t && alignOkList (off + sizeAt off t) ts

end

mutual

/-- A schema model is *plain* when no already-built datum object (`builtV`)
occurs inside its default values or nested models. -/
def plainModelB : Model → Bool
  | .primM _ df => plainDataOptB df
  | .bytesM _ df => plainDataOptB df
  | .blockM _ attrs df => plainAttrsB attrs && plainDataOptB df
  | .arrayM mo _ gen df =>
      plainModelOptB mo && plainModelOptB gen && plainDataOptB df
  | .optionalM m => plainModelB m
  | .alignM _ => true

/-- `plainModelB` over an optional model. -/
def plainModelOptB : Option Model → Bool
  | none => true
  | some m => plainModelB m

/-- `plainModelB` over class attributes. -/
def plainAttrsB : List (String × Attr) → Bool
  | [] => true
  | (_, .modelA m) :: rest => plainModelB m && plainAttrsB rest
  | (_, .plainA) :: rest => plainAttrsB rest

/-- Input data is *plain* when no already-built datum object occurs inside
it (models inside refinement tuples are fine, provided they are plain). -/
def plainDataB : Data → Bool
  | .intV _ => true
  | .strV _ => true
  | .bytesV _ => true
  | .listV xs => plainDataListB xs
  | .tupleV xs => plainDataListB xs
  | .dictV kvs => plainKvsB kvs
  | .noneV => true
  | .modelV m => plainModelB m
  | .builtV _ _ => false

/-- `plainDataB` over an optional datum. -/
def plainDataOptB : Option Data → Bool
  | none => true
  | some d => plainDataB d

/-- `plainDataB` over a list. -/
def plainDataListB : List Data → Bool
  | [] => true
  | d :: ds => plainDataB d && plainDataListB ds

/-- `plainDataB` over dict values. -/
def plainKvsB : List (String × Data) → Bool
  | [] => true
  | (_, v) :: kvs => plainDataB v && plainKvsB kvs

end

/-- A setter environment is plain when every setter that returns
successfully returns plain data. -/
def EnvPlain (env : SetterEnv) : Prop :=
  ∀ clsHead nm f, env clsHead nm = some f →
    ∀ base its d, f base its = .ok d → plainDataB d = true

/-- The empty setter environment (no `set_<name>` methods anywhere). -/
def exEnv0 : SetterEnv := fun _ _ => none

/-- Schema of scenario S1 reduced to one `U16` field: `record {a: U16}`. -/
def exU16Rec : Model := .blockM [6] [("a", .modelA (.primM .u16 none))] none

/-- Inner record `{p: U8, k: U8}` of the offset example. -/
def ex2Inner : Model :=
  .blockM [4] [("p", .modelA (.primM .u8 none)), ("k", .modelA (.primM .u8 none))] none

/-- Outer record `{a: U16, c: {p: U8, k: U8}}` of the offset example. -/
def ex2Root : Model :=
  .blockM [5] [("a", .modelA (.primM .u16 none)), ("c", .modelA ex2Inner)] none

/-- Input for the offset example. -/
def ex2D : Data :=
  .dictV [("a", .intV 0), ("c", .dictV [("p", .intV 1), ("k", .intV 2)])]

/-- Inner record `{pad: Align(2), b: U8}` of the nested-alignment example. -/
def exAlInner : Model :=
  .blockM [3] [("pad", .modelA (.alignM 2)), ("b", .modelA (.primM .u8 none))] none

/-- Outer record `{a: U8, inner: {pad: Align(2), b: U8}}`. -/
def exAlRoot : Model :=
  .blockM [2] [("a", .modelA (.primM .u8 none)), ("inner", .modelA exAlInner)] none

/-- Input for the nested-alignment example. -/
def exAlD : Data :=
  .dictV [("a", .intV 0xAA), ("inner", .dictV [("b", .intV 0xBB)])]

/-- Record class `R = {x: U8}` (1 byte), the declared field type of the
size/bytes counterexample. -/
def exR : Model := .blockM [10] [("x", .modelA (.primM .u8 none))] none

/-- Record class `R2(R) = {x: U8, y: U8}` (2 bytes), a subclass of `R`
proposed at build time through the packed-type protocol. -/
def exR2 : Model :=
  .blockM [20, 10]
    [("x", .modelA (.primM .u8 none)), ("y", .modelA (.primM .u8 none))] none

/-- Record `Main = {f: R, pad: Align(2), z: U8}` whose setter `set_f` defers
until `z` is built and then proposes `(R2, {x: 1, y: 2})`. -/
def exMain : Model :=
  .blockM [1]
    [("f", .modelA exR), ("pad", .modelA (.alignM 2)),
     ("z", .modelA (.primM .u8 none))] none

/-- `set_f`: raises `DependencyError` while `z` is unbuilt (as `int(self.z)`
would, line 223), then returns the refinement tuple `(R2, {x: 1, y: 2})`. -/
def exSetF : Setter := fun _ its =>
  match its[2]? with
  | some z =>
      if z.done then
        .ok (.tupleV [.modelV exR2, .dictV [("x", .intV 1), ("y", .intV 2)]])
      else .error (.dependency "Primitive does not yet have a value")
  | none => .error .internal

/-- Setter environment of `Main`. -/
def exEnvMain : SetterEnv := fun cls n =>
  if cls = 1 && n = "f" then some exSetF else none

/-- Input `{z: 5}` for `Main`. -/
def exMainD : Data := .dictV [("z", .intV 5)]

/-- The tree `Main` builds: `f` resolved to an `R2` of size 2, `pad` frozen
with 1 pad byte (computed while `f` was still estimated at `R`'s 1 byte),
`z = 5`. -/
def exMainT : Tree :=
  .blockT [1]
    [.blockT [20, 10] [.primT .u8 1, .primT .u8 2], .alignT 2 1, .primT .u8 5]

/-- Setter `set_p` of the cyclic record: needs `q` built first. -/
def exSetP : Setter := fun _ its =>
  match its[1]? with
  | some q => if q.done then .ok (.intV 1) else .error (.dependency "Forced dependency")
  | none => .error .internal

/-- Setter `set_q` of the cyclic record: needs `p` built first. -/
def exSetQ : Setter := fun _ its =>
  match its[0]? with
  | some p => if p.done then .ok (.intV 2) else .error (.dependency "Forced dependency")
  | none => .error .internal

/-- Setter environment of the cyclic record. -/
def exEnvCyc : SetterEnv := fun cls n =>
  if cls = 7 && n = "p" then some exSetP
  else if cls = 7 && n = "q" then some exSetQ
  else none

/-- Cyclic record `{p: U8, q: U8}` whose setters mutually depend. -/
def exCycM : Model :=
  .blockM [7]
    [("p", .modelA (.primM .u8 none)), ("q", .modelA (.primM .u8 none))] none

/-- The initial `_BlockItem` list of the cyclic record built with `{}`. -/
def exCycItems : List BItem :=
  initItems (blockFields
    [("p", .modelA (.primM .u8 none)), ("q", .modelA (.primM .u8 none))]) []

/-- Record `{a: U8, pad: Align(4), b: U8}` (scenario S4), a build whose
alignment pads are stable. -/
def exS4M : Model :=
  .blockM [8]
    [("a", .modelA (.primM .u8 none)), ("pad", .modelA (.alignM 4)),
     ("b", .modelA (.primM .u8 none))] none

/-- Input `{a: 0xAA, b: 0xBB}` for S4. -/
def exS4D : Data := .dictV [("a", .intV 0xAA), ("b", .intV 0xBB)]

/-- The tree S4 builds: `AA`, 3 pad bytes, `BB`. -/
def exS4T : Tree := .blockT [8] [.primT .u8 0xAA, .alignT 4 3, .primT .u8 0xBB]

/-- The name and resolution flag of every entry - the part of the loop state
that the termination argument tracks. -/
def sig (its : List BItem) : List (String × Bool) :=
  its.map fun it => (it.name, it.done)

/-- A nested build produces byte-run-consistent trees from plain models and
plain data. -/
def BmOk (bm : Except Err Nat → Model → Data → Except Err Tree) : Prop :=
  ∀ offE m d t, plainModelB m = true → plainDataB d = true →
    bm offE m d = .ok t → bytesOkB t = true

/-- Loop-state invariant for the byte-run consistency argument: every entry
has a plain model and plain data, and every installed tree is consistent. -/
def ItemsPlainInv (its : List BItem) : Prop :=
  ∀ it ∈ its, plainModelB it.model = true ∧ plainDataB it.data = true ∧
    ∀ t, it.tree = some t → bytesOkB t = true


/-- For alignments of at least 2, the Python modulo formula of `Align.size`
agrees with the plain natural-number formula `(A - off % A) % A`. -/
theorem alignPadAt_eq_nat (off : Nat) (A : Int) (hA : 2 ≤ A) :
    alignPadAt off A = (A.toNat - off % A.toNat) % A.toNat := by
  have hA0 : 0 ≤ A := by omega
  have hAn : (A.toNat : Int) = A := Int.toNat_of_nonneg hA0
  have hapos : 0 < A.toNat := by omega
  set a := A.toNat with ha
  set r := off % a with hrdef
  have hr : r < a := Nat.mod_lt _ hapos
  unfold alignPadAt
  rw [Int.fmod_eq_emod _ hA0, Int.fmod_eq_emod _ hA0]
  have h1 : (off : Int) % A = (r : Int) := by
    rw [← hAn, hrdef]; exact (Int.natCast_mod off a).symm
  rw [h1]
  rcases Nat.eq_zero_or_pos r with h0 | hpos
  · rw [h0]
    simp [Int.emod_self]
  · have hlt : A - (r : Int) < A := by omega
    have hge : 0 ≤ A - (r : Int) := by omega
    rw [Int.emod_eq_of_lt hge hlt]
    have : (a - r) % a = a - r := Nat.mod_eq_of_lt (by omega)
    omega

/-- The scan of `offset_of` starting at `off` returns `off` plus the
accumulated sizes of the items before the target. -/
theorem offsetOfAux_take :
    ∀ (items : List Tree) (i off : Nat), i < items.length →
      offsetOfAux off items i = .ok (off + sizeList off (items.take i))
  | [], i, off, h => absurd h (by simp)
  | t :: ts, 0, off, _ => by simp [offsetOfAux, sizeList]
  | t :: ts, i + 1, off, h => by
      have ih := offsetOfAux_take ts i (off + sizeAt off t) (by simpa using h)
      simp only [offsetOfAux, List.take_succ_cons, sizeList, ih]
      congr 1
      omega

/-- C2 (amended): the offset a child reports is relative to its parent
container only: for every container with items `items`, the `i`-th child's
`offset()` equals the sum of `size(prev)` over the preceding siblings (each
evaluated at the offset it occupies), with no `offset(c)` term added; the
root reports offset 0 (`DatatypeBase.offset`, lines 64-70). -/
theorem c2_offset_is_prefix_sum (items : List Tree) (i : Nat) (h : i < items.length) :
    offsetOfIdx items i = .ok (sizeList 0 (items.take i)) := by
  simpa using offsetOfAux_take items i 0 h

/-- C1: for a fixed-width primitive, building with an in-range value succeeds
and serializes the two's-complement encoding (signed representation iff the
value is negative), and out-of-range values fail with `Validation` - but the
code evaluated at the S1 input `U16(0x1234)` emits the BIG-endian bytes
`12 34`, not the little-endian `34 12` the claim requires:
`_Primitive._get_bytes` (line 219) calls `int.to_bytes` without a
`byteorder`, and CPython defaults it to `'big'`. -/
theorem c1_u16_bigendian_bug :
    buildRoot exEnv0 1 (.primM .u16 none) (.intV 0x1234) = .ok (.primT .u16 0x1234) ∧
    treeBytes (.primT .u16 0x1234) = [0x12, 0x34] ∧
    [(0x12 : Nat), 0x34] ≠ [0x34, 0x12] ∧
    buildRoot exEnv0 1 (.primM .u16 none) (.intV 70000) =
      .error (.validation "Value outside of range") ∧
    buildRoot exEnv0 1 (.primM .s8 none) (.intV (-1)) = .ok (.primT .s8 (-1)) ∧
    treeBytes (.primT .s8 (-1)) = [0xFF] :=
  ⟨rfl, rfl, by decide, rfl, rfl, rfl⟩

/-- C2 counterexample: in the built tree of `{a: U16, c: {p: U8, k: U8}}`,
the child `k` of the nested container `c` reports offset 1, while the claim's
accumulated formula `offset(c) + sum(prev) = 2 + 1 = 3` differs: `offset()`
does not accumulate ancestors' offsets. -/
theorem c2_counterexample :
    buildRoot exEnv0 5 ex2Root ex2D =
      .ok (.blockT [5] [.primT .u16 0, .blockT [4] [.primT .u8 1, .primT .u8 2]]) ∧
    offsetOfIdx [.primT .u8 1, .primT .u8 2] 1 = .ok 1 ∧
    offsetOfIdx [.primT .u16 0, .blockT [4] [.primT .u8 1, .primT .u8 2]] 1 = .ok 2 ∧
    sizeList 0 ([.primT .u8 1, .primT .u8 2].take 1) = 1 ∧
    (1 : Nat) ≠ 2 + 1 :=
  ⟨rfl, rfl, rfl, rfl, by decide⟩

/-- C2 witness: the second child of a two-item container reports exactly the
size of the first. -/
theorem c2_witness :
    offsetOfIdx [.primT .u8 1, .primT .u8 2] 1 =
      .ok (sizeList 0 ([.primT .u8 1, .primT .u8 2].take 1)) :=
  c2_offset_is_prefix_sum [.primT .u8 1, .primT .u8 2] 1 (by decide)

/-- C5 (amended): building `Align(A)` fails with `Spec` when `A < 2`;
otherwise a built `Align` whose offset *relative to its parent* is `O` has
`_pad_amount = (A - O mod A) mod A` (equal, for `A >= 2`, to the plain
natural-number formula), its bytes are that many zero bytes, and `size()` at
the same offset agrees. -/
theorem c5_align_amended (env : SetterEnv) (fuel : Nat) (A : Int) (off : Nat) (d : Data) :
    (A < 2 → buildModel env (fuel + 1) (.ok off) (.alignM A) d =
        .error (.spec "Align size must be at least 2")) ∧
    (2 ≤ A →
      buildModel env (fuel + 1) (.ok off) (.alignM A) d =
        .ok (.alignT A (alignPadAt off A)) ∧
      sizeAt off (.alignT A (alignPadAt off A)) = alignPadAt off A ∧
      treeBytes (.alignT A (alignPadAt off A)) = List.replicate (alignPadAt off A) 0 ∧
      alignPadAt off A = (A.toNat - off % A.toNat) % A.toNat) := by
  constructor
  · intro h
    simp [buildModel, h]
  · intro h
    refine ⟨?_, rfl, rfl, alignPadAt_eq_nat off A h⟩
    have : ¬ A < 2 := by omega
    simp [buildModel, this]

/-- C5 witness: `Align(4)` built at offset 1 freezes pad 3 and matches the
formula; `Align(1)` fails with `Spec`. -/
theorem c5_witness :
    buildModel exEnv0 1 (.ok 1) (.alignM 4) .noneV = .ok (.alignT 4 (alignPadAt 1 4)) ∧
    alignPadAt 1 4 = ((4 : Int).toNat - 1 % (4 : Int).toNat) % (4 : Int).toNat ∧
    buildModel exEnv0 1 (.ok 0) (.alignM 1) .noneV =
      .error (.spec "Align size must be at least 2") := by
  refine ⟨((c5_align_amended exEnv0 0 4 1 .noneV).2 (by decide)).1,
    ((c5_align_amended exEnv0 0 4 1 .noneV).2 (by decide)).2.2.2,
    (c5_align_amended exEnv0 0 1 0 .noneV).1 (by decide)⟩

/-- C5 counterexample: in `{a: U8, inner: {pad: Align(2), b: U8}}` the
nested `Align(2)` sits at global offset 1 but parent-relative offset 0, so
its size is 0 while the claim's global-offset formula gives
`(2 - 1 mod 2) mod 2 = 1`: `Align` aligns to its parent container, not to
the global offset. -/
theorem c5_counterexample :
    buildRoot exEnv0 5 exAlRoot exAlD =
      .ok (.blockT [2] [.primT .u8 0xAA, .blockT [3] [.alignT 2 0, .primT .u8 0xBB]]) ∧
    offsetOfIdx [.primT .u8 0xAA, .blockT [3] [.alignT 2 0, .primT .u8 0xBB]] 1 = .ok 1 ∧
    offsetOfIdx [.alignT 2 0, .primT .u8 0xBB] 0 = .ok 0 ∧
    sizeAt 0 (.alignT 2 0) = 0 ∧
    (0 : Nat) ≠ (2 - (1 + 0) % 2) % 2 :=
  ⟨rfl, rfl, rfl, rfl, by decide⟩

/-- C7: a slot declared with model M given a 2-tuple `(Sub, payload)` whose
first element is a datum model builds from `Sub` with `payload` iff `Sub` is
an instance of M's class, fails with `BuildError` (not-a-child message)
otherwise, and a 2-tuple whose first element is not a datum object passes
through as ordinary data for M (`Container._unpack_type` /
`_is_packed_type`, lines 166-186). -/
theorem c7_refinement (M Sub : Model) (payload : Data) :
    (subtypeB M Sub = true →
      unpackType M (.tupleV [.modelV Sub, payload]) = .ok (Sub, false, payload) ∧
      ∀ bm, buildElem bm M (.tupleV [.modelV Sub, payload]) =
        bm (.error .internal) Sub payload) ∧
    (subtypeB M Sub = false →
      unpackType M (.tupleV [.modelV Sub, payload]) = .error (.buildE notChildMsg)) ∧
    (∀ x y : Data, isDatumObj x = false →
      unpackType M (.tupleV [x, y]) = .ok (M, false, .tupleV [x, y])) := by
  refine ⟨fun h => ⟨by simp [unpackType, h], fun bm => by simp [buildElem, unpackType, h]⟩,
    fun h => by simp [unpackType, h], fun x y hx => ?_⟩
  cases x <;> simp_all [unpackType, isDatumObj]

/-- C7 witness: `R2` refines a slot declared `R`; `R` does not refine a slot
declared `R2`; `(1, 2)` is ordinary data. -/
theorem c7_witness :
    unpackType exR (.tupleV [.modelV exR2, .dictV []]) = .ok (exR2, false, .dictV []) ∧
    unpackType exR2 (.tupleV [.modelV exR, .dictV []]) = .error (.buildE notChildMsg) ∧
    unpackType exR (.tupleV [.intV 1, .intV 2]) = .ok (exR, false, .tupleV [.intV 1, .intV 2]) :=
  ⟨((c7_refinement exR exR2 (.dictV [])).1 (by decide)).1,
    (c7_refinement exR2 exR (.dictV [])).2.1 (by decide),
    (c7_refinement exR exR2 (.intV 0)).2.2 (.intV 1) (.intV 2) (by decide)⟩

/-- C9: `DatatypeBase.build` sets `_is_built = True` before delegating to
`_build`, and a raising `_build` leaves the flag set, so the instance stays
marked built: a later `build()` fails with the already-built `BuildError`
and `instantiate()` from it fails with `BuildError` too (lines 33-41,
72-76). -/
theorem c9_build_not_atomic (hook : Data → Option Err) (st : DState) (d d2 : Data) (e : Err)
    (hinst : st.isInstance = true) (hnb : st.isBuilt = false) (hfail : hook d = some e) :
    (dbuild hook st d).1.isBuilt = true ∧
    (dbuild hook st d).2 = some e ∧
    (dbuild hook (dbuild hook st d).1 d2).2 =
      some (.buildE "Attempted to build an already-built datum") ∧
    dinstantiate (dbuild hook st d).1 =
      .error (.buildE "Attempted to instantiate from a datum that is building or already built") := by
  simp [dbuild, dinstantiate, hinst, hnb, hfail]

/-- C9 witness: a `U8` instance built with the out-of-range value 300 keeps
`_is_built = True` after the `Validation` failure, and instantiating from it
raises `BuildError`. -/
theorem c9_witness :
    (dbuild (fun d => match primPreprocess .u8 d with | .error e => some e | .ok _ => none)
        ⟨true, false⟩ (.intV 300)).1.isBuilt = true ∧
    (dbuild (fun d => match primPreprocess .u8 d with | .error e => some e | .ok _ => none)
        ⟨true, false⟩ (.intV 300)).2 = some (.validation "Value outside of range") ∧
    dinstantiate (dbuild (fun d => match primPreprocess .u8 d with | .error e => some e | .ok _ => none)
        ⟨true, false⟩ (.intV 300)).1 =
      .error (.buildE "Attempted to instantiate from a datum that is building or already built") := by
  have h := c9_build_not_atomic
    (fun d => match primPreprocess .u8 d with | .error e => some e | .ok _ => none)
    ⟨true, false⟩ (.intV 300) .noneV (.validation "Value outside of range") rfl rfl rfl
  exact ⟨h.1, h.2.1, h.2.2.2⟩

/-- Only `Align` consults the offset context: building any `Datatype` model
is independent of it. -/
theorem buildModel_offE_irrel (env : SetterEnv) (fuel : Nat) (offE offE2 : Except Err Nat)
    (m : Model) (d : Data) (h : isDatatypeModel m = true) :
    buildModel env fuel offE m d = buildModel env fuel offE2 m d := by
  cases fuel with
  | zero => rfl
  | succ fuel => cases m <;> simp_all [buildModel, isDatatypeModel]

/-- C6: an `Optional(M)` (M a data-absorbing `Datatype` model) built with
`None` or an empty sequence has size 0 and empty bytes; built with non-empty
data valid for M it holds exactly the datum M builds from that data, so its
bytes and size equal M's. -/
theorem c6_optional_identity (env : SetterEnv) (fuel : Nat) (offE offE2 : Except Err Nat)
    (M : Model) (d : Data) (hM : isDatatypeModel M = true) :
    (isEmptyData d = true →
      buildModel env (fuel + 1) offE (.optionalM M) d = .ok (.optionalT none) ∧
      (∀ off, sizeAt off (.optionalT none) = 0) ∧ treeBytes (.optionalT none) = []) ∧
    (isEmptyData d = false →
      ∀ t, buildModel env fuel offE2 M d = .ok t →
        buildModel env (fuel + 1) offE (.optionalM M) d = .ok (.optionalT (some t)) ∧
        treeBytes (.optionalT (some t)) = treeBytes t ∧
        ∀ off, sizeAt off (.optionalT (some t)) = sizeAt off t) := by
  constructor
  · intro he
    refine ⟨?_, fun off => rfl, rfl⟩
    simp [buildModel, hM, he]
  · intro he t ht
    refine ⟨?_, rfl, fun off => rfl⟩
    have hirr := buildModel_offE_irrel env fuel (.error .internal) offE2 M d hM
    simp [buildModel, hM, he, hirr, ht]

/-- C6 witness: `Optional(U32)` built with `None` and `[]` is empty; built
with `1` it produces the same bytes as a bare `U32` built with `1`. -/
theorem c6_witness :
    buildModel exEnv0 2 (.ok 0) (.optionalM (.primM .u32 none)) .noneV = .ok (.optionalT none) ∧
    buildModel exEnv0 2 (.ok 0) (.optionalM (.primM .u32 none)) (.listV []) = .ok (.optionalT none) ∧
    buildModel exEnv0 2 (.ok 0) (.optionalM (.primM .u32 none)) (.intV 1) =
      .ok (.optionalT (some (.primT .u32 1))) ∧
    treeBytes (.optionalT (some (.primT .u32 1))) = treeBytes (.primT .u32 1) := by
  have h1 := ((c6_optional_identity exEnv0 1 (.ok 0) (.ok 0) (.primM .u32 none) .noneV rfl).1 rfl).1
  have h2 := ((c6_optional_identity exEnv0 1 (.ok 0) (.ok 0) (.primM .u32 none) (.listV []) rfl).1 rfl).1
  have h3 := (c6_optional_identity exEnv0 1 (.ok 0) (.ok 0) (.primM .u32 none) (.intV 1) rfl).2 rfl
    (.primT .u32 1) rfl
  exact ⟨h1, h2, h3.1, h3.2.1⟩

/-- `Array._process` produces one built item per input element. -/
theorem buildElems_length (bm : Except Err Nat → Model → Data → Except Err Tree) (em : Model) :
    ∀ (ds : List Data) (ts : List Tree), buildElems bm em ds = .ok ts → ts.length = ds.length
  | [], ts, h => by
      simp only [buildElems] at h
      cases h
      rfl
  | d :: ds, ts, h => by
      simp only [buildElems] at h
      cases hb : buildElem bm em d with
      | error e => rw [hb] at h; simp at h
      | ok t =>
          rw [hb] at h
          cases hr : buildElems bm em ds with
          | error e => rw [hr] at h; simp at h
          | ok ts2 =>
              rw [hr] at h
              simp at h
              have := buildElems_length bm em ds ts2 hr
              simp [← h, this]

/-- C8: for an `Array` built with sequence input `xs`: a declared negative
count fails with `Spec`; with a declared count `N >= 0` the preprocessing
count check fails with `Validation` exactly when `len(xs) != N` (and the
whole build fails with that `Validation` error); with no declared count the
count is set from the input, so afterwards `len(array) == len(xs)`
(`Array._preprocess` lines 483-499, `Array.__len__` lines 533-536). -/
theorem c8_array_length_law (env : SetterEnv) (fuel : Nat) (offE : Except Err Nat)
    (M : Model) (g : Option Model) (df : Option Data) (N : Int) (d : Data)
    (hseq : isSeq d = true) :
    (N < 0 → buildModel env (fuel + 1) offE (.arrayM (some M) (some N) g df) d =
        .error (.spec "Array item count cannot be less than 0")) ∧
    (0 ≤ N →
      ((∃ msg, arrayPreprocess (some M) (some N) g d = .error (.validation msg)) ↔
        (seqLen d : Int) ≠ N)) ∧
    ((seqLen d : Int) ≠ N → 0 ≤ N →
      buildModel env (fuel + 1) offE (.arrayM (some M) (some N) g df) d =
        .error (.validation "Item count does not match declared count")) ∧
    arrayPreprocess (some M) none g d = .ok (M, seqLen d, seqElems d) ∧
    (∀ t, buildModel env (fuel + 1) offE (.arrayM (some M) none g df) d = .ok t →
      treeLen t = seqLen d) := by
  refine ⟨fun hneg => ?_, fun hpos => ?_, fun hne hpos => ?_, ?_, fun t ht => ?_⟩
  · simp [buildModel, arrayPreprocess, hseq, hneg]
  · have hnneg : ¬ N < 0 := by omega
    constructor
    · rintro ⟨msg, hmsg⟩
      intro heq
      simp [arrayPreprocess, hseq, heq, hnneg] at hmsg
    · intro hne
      exact ⟨"Item count does not match declared count",
        by simp [arrayPreprocess, hseq, hne, hnneg]⟩
  · have hnneg : ¬ N < 0 := by omega
    simp [buildModel, arrayPreprocess, hseq, hne, hnneg]
  · simp [arrayPreprocess, hseq]
  · simp only [buildModel, arrayPreprocess, hseq, if_true] at ht
    cases hbe : buildElems (fun o m2 d2 => buildModel env fuel o m2 d2) M (seqElems d) with
    | error e => rw [hbe] at ht; simp at ht
    | ok ts =>
        rw [hbe] at ht
        simp at ht
        rw [← ht]
        simpa [treeLen, seqLen] using
          buildElems_length (fun o m2 d2 => buildModel env fuel o m2 d2) M (seqElems d) ts hbe

/-- C8 witness: `Array(U8, -1)` fails with `Spec`; `Array(U8, 3)` with one
element fails with `Validation`; an undeclared count is inferred and
`len(array)` equals the input length. -/
theorem c8_witness :
    buildModel exEnv0 2 (.ok 0) (.arrayM (some (.primM .u8 none)) (some (-1)) none none)
      (.listV []) = .error (.spec "Array item count cannot be less than 0") ∧
    buildModel exEnv0 2 (.ok 0) (.arrayM (some (.primM .u8 none)) (some 3) none none)
      (.listV [.intV 1]) = .error (.validation "Item count does not match declared count") ∧
    arrayPreprocess (some (.primM .u8 none)) none none (.listV [.intV 1, .intV 2]) =
      .ok (.primM .u8 none, seqLen (.listV [.intV 1, .intV 2]),
        seqElems (.listV [.intV 1, .intV 2])) ∧
    treeLen (.arrayT [.primT .u8 1, .primT .u8 2]) = seqLen (.listV [.intV 1, .intV 2]) := by
  have h1 := (c8_array_length_law exEnv0 1 (.ok 0) (.primM .u8 none) none none (-1)
    (.listV []) rfl).1 (by decide)
  have h2 := (c8_array_length_law exEnv0 1 (.ok 0) (.primM .u8 none) none none 3
    (.listV [.intV 1]) rfl).2.2.1 (by decide) (by decide)
  have h3 := (c8_array_length_law exEnv0 1 (.ok 0) (.primM .u8 none) none none 0
    (.listV [.intV 1, .intV 2]) rfl).2.2.2.1
  have h4 := (c8_array_length_law exEnv0 1 (.ok 0) (.primM .u8 none) none none 0
    (.listV [.intV 1, .intV 2]) rfl).2.2.2.2 (.arrayT [.primT .u8 1, .primT .u8 2]) rfl
  exact ⟨h1, h2, h3, h4⟩

/-- `Block._fields` distributes over concatenation of the class dict. -/
theorem blockFields_append (l1 l2 : List (String × Attr)) :
    blockFields (l1 ++ l2) = blockFields l1 ++ blockFields l2 := by
  simp [blockFields, List.filterMap_append]

/-- C10: the declared fields of a `Block` are exactly its class attributes
whose name does not start with an underscore and whose value is a datum
model, in declaration order; inserting an underscore-named attribute or a
non-datum attribute anywhere changes neither the field table
(`Block._fields`, lines 432-434), nor preflight/building/serialization
(`buildModel`), nor the size computation (`defaultSizeAt`). -/
theorem c10_fields_are_filtered (cls : List Nat) (pre post : List (String × Attr))
    (n : String) (a : Attr) (df : Option Data) (env : SetterEnv) (fuel : Nat)
    (offE : Except Err Nat) (d : Data) (fuel2 off : Nat)
    (h : startsUnderscore n = true ∨ a = .plainA) :
    blockFields (pre ++ (n, a) :: post) = blockFields (pre ++ post) ∧
    buildModel env fuel offE (.blockM cls (pre ++ (n, a) :: post) df) d =
      buildModel env fuel offE (.blockM cls (pre ++ post) df) d ∧
    defaultSizeAt fuel2 off (.blockM cls (pre ++ (n, a) :: post) df) =
      defaultSizeAt fuel2 off (.blockM cls (pre ++ post) df) ∧
    (∀ (n2 : String) (m : Model) (rest : List (String × Attr)),
      startsUnderscore n2 = false →
      blockFields ((n2, .modelA m) :: rest) = (n2, m) :: blockFields rest) := by
  have hf : blockFields (pre ++ (n, a) :: post) = blockFields (pre ++ post) := by
    rw [blockFields_append, blockFields_append]
    rcases h with h | h
    · cases a <;> simp [blockFields, h]
    · subst h; simp [blockFields]
  refine ⟨hf, ?_, ?_, fun n2 m rest hn2 => by simp [blockFields, hn2]⟩
  · cases fuel with
    | zero => rfl
    | succ fuel => simp only [buildModel]; rw [hf]
  · cases fuel2 with
    | zero => rfl
    | succ fuel2 => simp only [defaultSizeAt]; rw [hf]

/-- C10 witness: dropping a `_hidden` datum attribute and a plain `note`
attribute leaves the field table and the built record unchanged. -/
theorem c10_witness :
    blockFields [("a", .modelA (.primM .u8 none)), ("_hidden", .modelA (.primM .u8 none)),
        ("note", .plainA), ("b", .modelA (.primM .u8 none))] =
      blockFields [("a", .modelA (.primM .u8 none)), ("b", .modelA (.primM .u8 none))] ∧
    buildModel exEnv0 3 (.ok 0)
        (.blockM [9] [("a", .modelA (.primM .u8 none)), ("_hidden", .modelA (.primM .u8 none)),
          ("b", .modelA (.primM .u8 none))] none) (.dictV [("a", .intV 1), ("b", .intV 2)]) =
      buildModel exEnv0 3 (.ok 0)
        (.blockM [9] [("a", .modelA (.primM .u8 none)), ("b", .modelA (.primM .u8 none))] none)
        (.dictV [("a", .intV 1), ("b", .intV 2)]) := by
  have h1 := (c10_fields_are_filtered [9] [("a", .modelA (.primM .u8 none))]
    [("b", .modelA (.primM .u8 none))] "_hidden" (.modelA (.primM .u8 none)) none exEnv0 3
    (.ok 0) (.dictV [("a", .intV 1), ("b", .intV 2)]) 1 0 (Or.inl rfl))
  have h2 := (c10_fields_are_filtered [9] [("a", .modelA (.primM .u8 none)),
      ("_hidden", .modelA (.primM .u8 none))]
    [("b", .modelA (.primM .u8 none))] "note" .plainA none exEnv0 3
    (.ok 0) (.dictV [("a", .intV 1), ("b", .intV 2)]) 1 0 (Or.inr rfl))
  simp only [List.cons_append, List.nil_append] at h1 h2
  exact ⟨by rw [h2.1]; exact h1.1, h1.2.1⟩

/-- A successful setter stage changes only `data` and `setter_done`. -/
theorem setterStep_ok (env : SetterEnv) (clsHead : Nat) (base : Data) (ctx : List BItem)
    (it it1 : BItem) (h : setterStep env clsHead base ctx it = .ok it1) :
    it1.name = it.name ∧ it1.done = it.done ∧ it1.model = it.model ∧ it1.tree = it.tree := by
  unfold setterStep at h
  split at h
  · split at h
    · simp_all
    · cases h
      simp
  · cases h
    simp

/-- The build tail marks the entry done exactly when it returns no error,
and never renames it. -/
theorem attemptRest_spec (bm : Except Err Nat → Model → Data → Except Err Tree)
    (fuel : Nat) (ctx : List BItem) (i : Nat) (it : BItem) :
    (attemptRest bm fuel ctx i it).1.name = it.name ∧
    ((attemptRest bm fuel ctx i it).2 = none → (attemptRest bm fuel ctx i it).1.done = true) ∧
    (∀ e, (attemptRest bm fuel ctx i it).2 = some e →
      (attemptRest bm fuel ctx i it).1.done = it.done) := by
  unfold attemptRest
  split
  · simp
  · split
    · simp
    · split <;> simp

/-- One attempt marks the entry done exactly when it returns no error, and
never renames it. -/
theorem attemptItem_spec (bm : Except Err Nat → Model → Data → Except Err Tree)
    (env : SetterEnv) (fuel clsHead : Nat) (base : Data) (ctx : List BItem) (i : Nat)
    (it : BItem) :
    (attemptItem bm env fuel clsHead base ctx i it).1.name = it.name ∧
    ((attemptItem bm env fuel clsHead base ctx i it).2 = none →
      (attemptItem bm env fuel clsHead base ctx i it).1.done = true) ∧
    (∀ e, (attemptItem bm env fuel clsHead base ctx i it).2 = some e →
      (attemptItem bm env fuel clsHead base ctx i it).1.done = it.done) := by
  unfold attemptItem
  split
  · simp_all
  · rename_i it1 hst
    obtain ⟨hn, hd, _, _⟩ := setterStep_ok env clsHead base ctx it it1 hst
    split
    · split
      · simp_all
      · have h := attemptRest_spec bm fuel ctx i it1
        simp_all
    · have h := attemptRest_spec bm fuel ctx i it1
      simp_all

/-- Updating one entry updates its signature pointwise. -/
theorem sig_set (l : List BItem) (i : Nat) (x : BItem) :
    sig (l.set i x) = (sig l).set i (x.name, x.done) := by
  simp [sig, List.map_set]

/-- Writing back the element already stored at a position is the
identity. -/
theorem list_set_self {α : Type} : ∀ (l : List α) (i : Nat) (a : α),
    l[i]? = some a → l.set i a = l
  | [], i, a, h => by simp at h
  | b :: l, 0, a, h => by simp_all
  | b :: l, i + 1, a, h => by
      simp only [List.getElem?_cons_succ] at h
      simp [list_set_self l i a h]

/-- The unresolved names are determined by the signature. -/
theorem undoneNames_sig (its : List BItem) :
    undoneNames its = ((sig its).filter fun p => !p.2).map Prod.fst := by
  induction its with
  | nil => rfl
  | cons it its ih =>
      by_cases h : it.done <;> simp_all [undoneNames, sig, List.filter]

/-- The unresolved count is determined by the signature. -/
theorem undoneCount_sig (its : List BItem) :
    undoneCount its = ((sig its).filter fun p => !p.2).length := by
  induction its with
  | nil => rfl
  | cons it its ih =>
      by_cases h : it.done <;> simp_all [undoneCount, sig, List.filter]

/-- Equal signatures give equal unresolved names. -/
theorem undoneNames_eq_of_sig {a b : List BItem} (h : sig a = sig b) :
    undoneNames a = undoneNames b := by
  rw [undoneNames_sig, undoneNames_sig, h]

/-- Equal signatures give equal unresolved counts. -/
theorem undoneCount_eq_of_sig {a b : List BItem} (h : sig a = sig b) :
    undoneCount a = undoneCount b := by
  rw [undoneCount_sig, undoneCount_sig, h]

/-- Flipping an unresolved entry to resolved strictly shrinks the
unresolved count. -/
theorem filter_false_set_true : ∀ (l : List (String × Bool)) (i : Nat) (nm nm2 : String),
    l[i]? = some (nm2, false) →
    ((l.set i (nm, true)).filter fun p => !p.2).length <
      (l.filter fun p => !p.2).length
  | [], i, nm, nm2, h => by simp at h
  | b :: l, 0, nm, nm2, h => by
      simp only [List.getElem?_cons_zero, Option.some_inj] at h
      subst h
      simp [List.filter]
  | b :: l, i + 1, nm, nm2, h => by
      simp only [List.getElem?_cons_succ] at h
      have := filter_false_set_true l i nm nm2 h
      rcases b with ⟨s, bo⟩
      cases bo <;> simp_all [List.filter]

/-- A failed attempt leaves every name and done flag unchanged. -/
theorem buildBItem_sig_some (bm : Except Err Nat → Model → Data → Except Err Tree)
    (env : SetterEnv) (fuel clsHead : Nat) (base : Data) (items : List BItem) (i : Nat)
    (e : Err) (h : (buildBItem bm env fuel clsHead base items i).2 = some e) :
    sig (buildBItem bm env fuel clsHead base items i).1 = sig items := by
  unfold buildBItem at *
  cases hit : items[i]? with
  | none => simp [hit]
  | some it =>
      simp only [hit] at h ⊢
      obtain ⟨hn, -, hd⟩ := attemptItem_spec bm env fuel clsHead base items i it
      have hd2 := hd e h
      rw [sig_set, hn, hd2]
      have : (sig items)[i]? = some (it.name, it.done) := by
        simp [sig, List.getElem?_map, hit]
      rw [list_set_self _ i _ this]

/-- A successful attempt marks exactly the attempted entry done. -/
theorem buildBItem_sig_none (bm : Except Err Nat → Model → Data → Except Err Tree)
    (env : SetterEnv) (fuel clsHead : Nat) (base : Data) (items : List BItem) (i : Nat)
    (it : BItem) (hit : items[i]? = some it)
    (h : (buildBItem bm env fuel clsHead base items i).2 = none) :
    sig (buildBItem bm env fuel clsHead base items i).1 =
      (sig items).set i (it.name, true) := by
  unfold buildBItem at *
  simp only [hit] at h ⊢
  obtain ⟨hn, hd, -⟩ := attemptItem_spec bm env fuel clsHead base items i it
  rw [sig_set, hn, hd h]

/-- Pass invariants: the progress flag is monotone, the unresolved count
never grows, a pass that first reports progress strictly shrank it, and a
pass that reports no progress left every done flag unchanged. -/
theorem buildPassAux_spec (attempt : List BItem → Nat → List BItem × Option Err)
    (hsome : ∀ its i e, (attempt its i).2 = some e → sig (attempt its i).1 = sig its)
    (hnone : ∀ its i it, its[i]? = some it → (attempt its i).2 = none →
      sig (attempt its i).1 = (sig its).set i (it.name, true)) :
    ∀ (n : Nat) (items : List BItem) (i : Nat) (prog : Bool),
      (prog = true → (buildPassAux attempt n items i prog).2.1 = true) ∧
      undoneCount (buildPassAux attempt n items i prog).1 ≤ undoneCount items ∧
      (prog = false → (buildPassAux attempt n items i prog).2.1 = true →
        undoneCount (buildPassAux attempt n items i prog).1 < undoneCount items) ∧
      ((buildPassAux attempt n items i prog).2.1 = false →
        sig (buildPassAux attempt n items i prog).1 = sig items)
  | 0, items, i, prog => by
      simp [buildPassAux]
  | n + 1, items, i, prog => by
      simp only [buildPassAux]
      cases hit : items[i]? with
      | none => simp
      | some it =>
          dsimp only
          by_cases hdone : it.done = true
          · rw [if_pos hdone]
            exact buildPassAux_spec attempt hsome hnone n items (i + 1) prog
          · rw [if_neg hdone]
            cases hatt : attempt items i with
            | mk its1 oe =>
                cases oe with
                | none =>
                    dsimp only
                    have hs : sig its1 = (sig items).set i (it.name, true) := by
                      have := hnone items i it hit (by rw [hatt])
                      rwa [hatt] at this
                    have hsigi : (sig items)[i]? = some (it.name, false) := by
                      simp only [Bool.not_eq_true] at hdone
                      simp [sig, List.getElem?_map, hit, hdone]
                    have hlt : undoneCount its1 < undoneCount items := by
                      rw [undoneCount_sig, undoneCount_sig, hs]
                      exact filter_false_set_true (sig items) i it.name it.name hsigi
                    obtain ⟨ihp, ihle, ihlt, ihsig⟩ :=
                      buildPassAux_spec attempt hsome hnone n its1 (i + 1) true
                    refine ⟨fun _ => ihp rfl, by omega, fun _ _ => by omega, fun hf => ?_⟩
                    exact absurd (ihp rfl) (by simp [hf])
                | some e =>
                    have hs : sig its1 = sig items := by
                      have := hsome items i e (by rw [hatt])
                      rwa [hatt] at this
                    have heq : undoneCount its1 = undoneCount items :=
                      undoneCount_eq_of_sig hs
                    cases e with
                    | dependency msg =>
                        dsimp only
                        obtain ⟨ihp, ihle, ihlt, ihsig⟩ :=
                          buildPassAux_spec attempt hsome hnone n its1 (i + 1) prog
                        exact ⟨ihp, by omega, fun h1 h2 => by
                          have := ihlt h1 h2; omega,
                          fun hf => (ihsig hf).trans hs⟩
                    | internal => exact ⟨fun h => h, by dsimp only; omega, fun h1 h2 => by simp [h1] at h2, fun _ => hs⟩
                    | fuelOut => exact ⟨fun h => h, by dsimp only; omega, fun h1 h2 => by simp [h1] at h2, fun _ => hs⟩
                    | spec m => exact ⟨fun h => h, by dsimp only; omega, fun h1 h2 => by simp [h1] at h2, fun _ => hs⟩
                    | buildE m => exact ⟨fun h => h, by dsimp only; omega, fun h1 h2 => by simp [h1] at h2, fun _ => hs⟩
                    | validation m => exact ⟨fun h => h, by dsimp only; omega, fun h1 h2 => by simp [h1] at h2, fun _ => hs⟩

/-- No unresolved entries means all entries are done. -/
theorem undoneCount_zero_all_done (items : List BItem) :
    undoneCount items = 0 ↔ (items.all fun it => it.done) = true := by
  induction items with
  | nil => simp [undoneCount]
  | cons it its ih => by_cases h : it.done <;> simp_all [undoneCount, List.filter]

/-- Termination of the resolution loop: with any budget above the
unresolved count, the loop neither exhausts the budget nor depends on it. -/
theorem buildLoopO_stable (attempt : List BItem → Nat → List BItem × Option Err)
    (hsome : ∀ its i e, (attempt its i).2 = some e → sig (attempt its i).1 = sig its)
    (hnone : ∀ its i it, its[i]? = some it → (attempt its i).2 = none →
      sig (attempt its i).1 = (sig its).set i (it.name, true)) :
    ∀ (u : Nat) (items : List BItem), undoneCount items ≤ u →
      ∀ b, undoneCount items < b →
        buildLoopO attempt b items = buildLoopO attempt (undoneCount items + 1) items ∧
        buildLoopO attempt b items ≠ none := by
  intro u
  induction u with
  | zero =>
      intro items hle b hb
      have hall : (items.all fun it => it.done) = true := by
        rw [← undoneCount_zero_all_done]; omega
      obtain ⟨b2, rfl⟩ : ∃ b2, b = b2 + 1 := ⟨b - 1, by omega⟩
      have h0 : undoneCount items = 0 := by omega
      rw [h0]
      simp [buildLoopO, hall]
  | succ u ih =>
      intro items hle b hb
      obtain ⟨b2, rfl⟩ : ∃ b2, b = b2 + 1 := ⟨b - 1, by omega⟩
      by_cases hall : (items.all fun it => it.done) = true
      · constructor
        · simp [buildLoopO, hall]
        · simp [buildLoopO, hall]
      · have hallf : ¬ (items.all fun it => it.done) = true := hall
        rcases hpass : buildPass attempt items with ⟨its, prog, oe⟩
        have hspec := buildPassAux_spec attempt hsome hnone items.length items 0 false
        unfold buildPass at hpass
        rw [hpass] at hspec
        obtain ⟨-, hle2, hlt, hsig⟩ := hspec
        simp only at hle2 hlt hsig
        have hunf : ∀ c, buildLoopO attempt (c + 1) items =
            (match (its, prog, oe) with
             | (_, _, some e) => some (.error e)
             | (its2, true, none) => buildLoopO attempt c its2
             | (its2, false, none) =>
                 some (.error (.buildE (cyclMsg (undoneNames its2))))) := by
          intro c
          simp only [buildLoopO]
          rw [if_neg hallf]
          unfold buildPass
          rw [hpass]
        cases oe with
        | some e =>
            rw [hunf b2, hunf (undoneCount items)]
            simp
        | none =>
            cases prog with
            | false =>
                rw [hunf b2, hunf (undoneCount items)]
                simp
            | true =>
                have hlt2 : undoneCount its < undoneCount items := hlt (by trivial) (by trivial)
                rw [hunf b2, hunf (undoneCount items)]
                dsimp only
                have h1 := ih its (by omega) b2 (by omega)
                have h2 := ih its (by omega) (undoneCount items) (by omega)
                exact ⟨h1.1.trans h2.1.symm, h1.2⟩

/-- C4: the field-resolution loop of `Block._process` always terminates: a
pass budget above the number of unresolved entries is never exhausted (the
result is budget-independent), because every pass either resolves at least
one entry - strictly decreasing the unresolved count - or aborts with an
error; and a full pass that resolves nothing makes the loop raise
`BuildError` whose message lists exactly the names of all still-unresolved
fields. Universally quantified over the setter environment and the nested
build behaviour. -/
theorem c4_resolution_loop (bm : Except Err Nat → Model → Data → Except Err Tree)
    (env : SetterEnv) (fuel clsHead : Nat) (base : Data) (items : List BItem) :
    (∀ b, undoneCount items < b →
      buildLoopO (buildBItem bm env fuel clsHead base) b items =
        buildLoopO (buildBItem bm env fuel clsHead base) (undoneCount items + 1) items ∧
      buildLoopO (buildBItem bm env fuel clsHead base) b items ≠ none) ∧
    (∀ b its, (items.all fun it => it.done) = false →
      buildPass (buildBItem bm env fuel clsHead base) items = (its, false, none) →
      buildLoopO (buildBItem bm env fuel clsHead base) (b + 1) items =
        some (.error (.buildE (cyclMsg (undoneNames its)))) ∧
      undoneNames its = undoneNames items) := by
  have hsome := fun its i e h => buildBItem_sig_some bm env fuel clsHead base its i e h
  have hnone := fun its i it hit h => buildBItem_sig_none bm env fuel clsHead base its i it hit h
  constructor
  · intro b hb
    exact buildLoopO_stable _ hsome hnone (undoneCount items) items le_rfl b hb
  · intro b its hall hpass
    constructor
    · simp only [buildLoopO]
      rw [if_neg (by simp [hall])]
      rw [hpass]
    · have hspec := buildPassAux_spec _ hsome hnone items.length items 0 false
      unfold buildPass at hpass
      rw [hpass] at hspec
      exact undoneNames_eq_of_sig (hspec.2.2.2 rfl)

/-- C4 witness: the record `{p: U8, q: U8}` whose setters mutually depend
fails with the cyclical-dependency `BuildError` naming both `p` and `q`. -/
theorem c4_witness :
    buildLoopO (buildBItem (fun o m d => buildModel exEnvCyc 3 o m d) exEnvCyc 3 7 (.dictV []))
      1 exCycItems = some (.error (.buildE (cyclMsg (undoneNames exCycItems)))) ∧
    undoneNames exCycItems = ["p", "q"] := by
  have h := (c4_resolution_loop (fun o m d => buildModel exEnvCyc 3 o m d) exEnvCyc 3 7
    (.dictV []) exCycItems).2 0 exCycItems rfl rfl
  exact ⟨h.1, rfl⟩

/-- `int.to_bytes` yields exactly the requested number of bytes. -/
theorem natToBE_length : ∀ (len n : Nat), (natToBE len n).length = len
  | 0, _ => rfl
  | len + 1, n => by simp [natToBE, natToBE_length len]

/-- `_Primitive._get_bytes` yields exactly `bit_size // 8` bytes. -/
theorem intToBytes_length (len : Nat) (v : Int) : (intToBytes len v).length = len := by
  simp [intToBytes, natToBE_length]

mutual

/-- With consistent byte-run sizes and stable alignment pads, the bytes of
every datum have exactly `size()` bytes. -/
theorem treeBytes_length : ∀ (t : Tree) (off : Nat), bytesOkB t = true →
    alignOkB off t = true → (treeBytes t).length = sizeAt off t
  | .primT k v, off, _, _ => by simp [treeBytes, sizeAt, intToBytes_length]
  | .bytesT none data, off, _, _ => by simp [treeBytes, sizeAt]
  | .bytesT (some n) data, off, hb, _ => by
      simp only [bytesOkB, beq_iff_eq] at hb
      simp [treeBytes, sizeAt]
      omega
  | .blockT cls items, off, hb, ha => by
      simp only [treeBytes, sizeAt]
      exact treeBytesList_length items 0 (by simpa [bytesOkB] using hb)
        (by simpa [alignOkB] using ha)
  | .arrayT items, off, hb, ha => by
      simp only [treeBytes, sizeAt]
      exact treeBytesList_length items 0 (by simpa [bytesOkB] using hb)
        (by simpa [alignOkB] using ha)
  | .optionalT none, off, _, _ => rfl
  | .optionalT (some t), off, hb, ha =>
      treeBytes_length t off (by simpa [bytesOkB] using hb)
        (by simpa [alignOkB] using ha)
  | .alignT a pad, off, _, ha => by
      simp only [alignOkB, beq_iff_eq] at ha
      simp [treeBytes, sizeAt, ha]

/-- List version of `treeBytes_length` with running offsets. -/
theorem treeBytesList_length : ∀ (ts : List Tree) (off : Nat), bytesOkList ts = true →
    alignOkList off ts = true → (treeBytesList ts).length = sizeList off ts
  | [], _, _, _ => rfl
  | t :: ts, off, hb, ha => by
      simp only [bytesOkList, Bool.and_eq_true] at hb
      simp only [alignOkList, Bool.and_eq_true] at ha
      simp only [treeBytesList, sizeList, List.length_append]
      rw [treeBytes_length t off hb.1 ha.1,
        treeBytesList_length ts (off + sizeAt off t) hb.2 ha.2]

end

/-- Members of a plain list are plain. -/
theorem plainDataListB_mem : ∀ (xs : List Data), plainDataListB xs = true →
    ∀ x ∈ xs, plainDataB x = true
  | d :: ds, h, x, hx => by
      simp only [plainDataListB, Bool.and_eq_true] at h
      rcases List.mem_cons.mp hx with rfl | hx
      · exact h.1
      · exact plainDataListB_mem ds h.2 x hx

/-- Values looked up in a plain dict are plain. -/
theorem plainKvsB_lookup : ∀ (kvs : List (String × Data)), plainKvsB kvs = true →
    ∀ n v, dictLookup kvs n = some v → plainDataB v = true
  | [], _, n, v, h => by simp [dictLookup] at h
  | (k, w) :: kvs, hp, n, v, h => by
      simp only [plainKvsB, Bool.and_eq_true] at hp
      unfold dictLookup at h
      split at h
      · cases h; exact hp.1
      · exact plainKvsB_lookup kvs hp.2 n v h

/-- Elements of a plain sequence are plain. -/
theorem seqElems_plain (d : Data) (h : plainDataB d = true) :
    ∀ x ∈ seqElems d, plainDataB x = true := by
  cases d with
  | listV xs => exact plainDataListB_mem xs (by simpa [plainDataB] using h)
  | tupleV xs => exact plainDataListB_mem xs (by simpa [plainDataB] using h)
  | strV s => intro x hx; simp only [seqElems, List.mem_map] at hx
              obtain ⟨c, -, rfl⟩ := hx; rfl
  | bytesV bs => intro x hx; simp only [seqElems, List.mem_map] at hx
                 obtain ⟨b, -, rfl⟩ := hx; rfl
  | _ => intro x hx; simp [seqElems] at hx

/-- Field models of a plain class dict are plain. -/
theorem blockFields_plain : ∀ (attrs : List (String × Attr)), plainAttrsB attrs = true →
    ∀ p ∈ blockFields attrs, plainModelB p.2 = true
  | [], _, p, hp => by simp [blockFields] at hp
  | (k, .modelA m) :: attrs, h, p, hp => by
      simp only [plainAttrsB, Bool.and_eq_true] at h
      by_cases hk : startsUnderscore k = true
      · simp [blockFields, List.filterMap_cons, hk] at hp
        exact blockFields_plain attrs h.2 p (by simpa [blockFields] using hp)
      · simp [blockFields, List.filterMap_cons, hk] at hp
        rcases hp with hpe | hp2
        · rw [Prod.ext_iff] at hpe
          have h2 : p.2 = m := hpe.2
          rw [h2]
          exact h.1
        · exact blockFields_plain attrs h.2 p (by simpa [blockFields] using hp2)
  | (k, .plainA) :: attrs, h, p, hp => by
      simp only [plainAttrsB] at h
      simp only [blockFields, List.filterMap_cons] at hp
      exact blockFields_plain attrs h p (by simpa [blockFields] using hp)

/-- The packed-type protocol on plain inputs yields a plain model, a plain
payload, and never an already-built proposal. -/
theorem unpackType_plain (M : Model) (d : Data) (m2 : Model) (fb : Bool) (d2 : Data)
    (hm : plainModelB M = true) (hd : plainDataB d = true)
    (h : unpackType M d = .ok (m2, fb, d2)) :
    plainModelB m2 = true ∧ plainDataB d2 = true ∧ fb = false := by
  unfold unpackType at h
  split at h
  · rename_i m payload
    split at h
    · cases h
      simp only [plainDataB, plainDataListB, Bool.and_eq_true] at hd
      exact ⟨hd.1, hd.2.1, rfl⟩
    · cases h
  · rename_i m t payload
    simp [plainDataB, plainDataListB] at hd
  · cases h
    exact ⟨hm, hd, rfl⟩

/-- Projection of the loop-state invariant to one entry. -/
theorem itemInv_of_mem {its : List BItem} (h : ItemsPlainInv its) {it : BItem}
    (hm : it ∈ its) : plainModelB it.model = true ∧ plainDataB it.data = true ∧
      ∀ t, it.tree = some t → bytesOkB t = true := h it hm

/-- The setter stage preserves the plainness invariant under a plain
environment. -/
theorem setterStep_inv (env : SetterEnv) (clsHead : Nat) (base : Data) (ctx : List BItem)
    (it it1 : BItem) (henv : EnvPlain env)
    (hit : plainModelB it.model = true ∧ plainDataB it.data = true ∧
      ∀ t, it.tree = some t → bytesOkB t = true)
    (h : setterStep env clsHead base ctx it = .ok it1) :
    plainModelB it1.model = true ∧ plainDataB it1.data = true ∧
      ∀ t, it1.tree = some t → bytesOkB t = true := by
  unfold setterStep at h
  split at h
  · rename_i f hf hsd
    split at h
    · cases h
    · rename_i d hd
      cases h
      exact ⟨hit.1, henv clsHead it.name f hf base ctx d hd, hit.2.2⟩
  · cases h
    exact hit

/-- The build tail preserves the plainness invariant when nested builds
produce consistent trees. -/
theorem attemptRest_inv (bm : Except Err Nat → Model → Data → Except Err Tree)
    (fuel : Nat) (ctx : List BItem) (i : Nat) (it : BItem) (hbm : BmOk bm)
    (hit : plainModelB it.model = true ∧ plainDataB it.data = true ∧
      ∀ t, it.tree = some t → bytesOkB t = true) :
    plainModelB (attemptRest bm fuel ctx i it).1.model = true ∧
    plainDataB (attemptRest bm fuel ctx i it).1.data = true ∧
    ∀ t, (attemptRest bm fuel ctx i it).1.tree = some t → bytesOkB t = true := by
  unfold attemptRest
  cases hu : unpackType it.model it.data with
  | error e => exact hit
  | ok r =>
      obtain ⟨m2, fb, d2⟩ := r
      obtain ⟨hm2, hd2, hfb⟩ := unpackType_plain it.model it.data m2 fb d2 hit.1 hit.2.1 hu
      dsimp only
      subst hfb
      simp only [if_false, Bool.false_eq_true]
      cases hb : bm (offEstimate fuel 0 ctx i) m2 d2 with
      | error e => exact hit
      | ok t =>
          refine ⟨hit.1, hit.2.1, fun t2 ht2 => ?_⟩
          simp only at ht2
          cases ht2
          exact hbm _ m2 d2 t hm2 hd2 hb

/-- One attempt preserves the plainness invariant. -/
theorem attemptItem_inv (bm : Except Err Nat → Model → Data → Except Err Tree)
    (env : SetterEnv) (fuel clsHead : Nat) (base : Data) (ctx : List BItem) (i : Nat)
    (it : BItem) (hbm : BmOk bm) (henv : EnvPlain env)
    (hit : plainModelB it.model = true ∧ plainDataB it.data = true ∧
      ∀ t, it.tree = some t → bytesOkB t = true) :
    plainModelB (attemptItem bm env fuel clsHead base ctx i it).1.model = true ∧
    plainDataB (attemptItem bm env fuel clsHead base ctx i it).1.data = true ∧
    ∀ t, (attemptItem bm env fuel clsHead base ctx i it).1.tree = some t →
      bytesOkB t = true := by
  unfold attemptItem
  cases hst : setterStep env clsHead base ctx it with
  | error e => exact hit
  | ok it1 =>
      have hit1 := setterStep_inv env clsHead base ctx it it1 henv hit hst
      dsimp only
      split
      · rename_i m t heq
        rw [heq] at hit1
        simp [plainDataB] at hit1
      · exact attemptRest_inv bm fuel ctx i it1 hbm hit1

/-- Updating one entry with an invariant-satisfying entry preserves the
invariant. -/
theorem itemsInv_set {its : List BItem} (h : ItemsPlainInv its) {x : BItem}
    (hx : plainModelB x.model = true ∧ plainDataB x.data = true ∧
      ∀ t, x.tree = some t → bytesOkB t = true) (i : Nat) :
    ItemsPlainInv (its.set i x) := by
  intro it hm
  rcases List.mem_or_eq_of_mem_set hm with hm2 | rfl
  · exact h it hm2
  · exact hx

/-- One loop attempt preserves the loop-state invariant. -/
theorem buildBItem_inv (bm : Except Err Nat → Model → Data → Except Err Tree)
    (env : SetterEnv) (fuel clsHead : Nat) (base : Data) (items : List BItem) (i : Nat)
    (hbm : BmOk bm) (henv : EnvPlain env) (hinv : ItemsPlainInv items) :
    ItemsPlainInv (buildBItem bm env fuel clsHead base items i).1 := by
  unfold buildBItem
  cases hit : items[i]? with
  | none => exact hinv
  | some it =>
      dsimp only
      refine itemsInv_set hinv ?_ i
      exact attemptItem_inv bm env fuel clsHead base items i it hbm henv
        (hinv it (List.getElem?_mem hit))

/-- A pass preserves the loop-state invariant. -/
theorem buildPassAux_inv (attempt : List BItem → Nat → List BItem × Option Err)
    (hatt : ∀ its i, ItemsPlainInv its → ItemsPlainInv (attempt its i).1) :
    ∀ (n : Nat) (items : List BItem) (i : Nat) (prog : Bool),
      ItemsPlainInv items → ItemsPlainInv (buildPassAux attempt n items i prog).1
  | 0, items, i, prog, h => h
  | n + 1, items, i, prog, h => by
      simp only [buildPassAux]
      cases hit : items[i]? with
      | none => exact h
      | some it =>
          dsimp only
          by_cases hdone : it.done = true
          · rw [if_pos hdone]
            exact buildPassAux_inv attempt hatt n items (i + 1) prog h
          · rw [if_neg hdone]
            cases hatt2 : attempt items i with
            | mk its1 oe =>
                have hinv1 : ItemsPlainInv its1 := by
                  have := hatt items i h
                  rwa [hatt2] at this
                cases oe with
                | none => exact buildPassAux_inv attempt hatt n its1 (i + 1) true hinv1
                | some e =>
                    cases e with
                    | dependency msg =>
                        exact buildPassAux_inv attempt hatt n its1 (i + 1) prog hinv1
                    | internal => exact hinv1
                    | fuelOut => exact hinv1
                    | spec m => exact hinv1
                    | buildE m => exact hinv1
                    | validation m => exact hinv1

/-- A successful loop run preserves the loop-state invariant. -/
theorem buildLoopO_inv (attempt : List BItem → Nat → List BItem × Option Err)
    (hatt : ∀ its i, ItemsPlainInv its → ItemsPlainInv (attempt its i).1) :
    ∀ (b : Nat) (items its : List BItem), ItemsPlainInv items →
      buildLoopO attempt b items = some (.ok its) → ItemsPlainInv its
  | 0, items, its, h, he => by simp [buildLoopO] at he
  | b + 1, items, its, h, he => by
      simp only [buildLoopO] at he
      split at he
      · cases he
        exact h
      · rcases hpass : buildPass attempt items with ⟨its1, prog, oe⟩
        rw [hpass] at he
        have hinv1 : ItemsPlainInv its1 := by
          have := buildPassAux_inv attempt hatt items.length items 0 false h
          unfold buildPass at hpass
          rwa [hpass] at this
        cases oe with
        | some e => simp at he
        | none =>
            cases prog with
            | true => exact buildLoopO_inv attempt hatt b its1 its hinv1 he
            | false => simp at he

/-- The initial entries of a block build satisfy the invariant when the
fields and the input dict are plain. -/
theorem initItems_inv (fields : List (String × Model)) (kvs : List (String × Data))
    (hf : ∀ p ∈ fields, plainModelB p.2 = true)
    (hk : plainKvsB kvs = true) :
    ItemsPlainInv (initItems fields kvs) := by
  intro it hm
  simp only [initItems, List.mem_map] at hm
  obtain ⟨nm, hnm, rfl⟩ := hm
  refine ⟨hf nm hnm, ?_, fun t ht => by simp at ht⟩
  dsimp only
  cases hl : dictLookup kvs nm.1 with
  | some v =>
      simp only [hl, Option.getD_some]
      exact plainKvsB_lookup kvs hk nm.1 v hl
  | none =>
      simp only [hl, Option.getD_none]
      cases hdf : modelDefault nm.2 with
      | none => simp [hdf, plainDataB]
      | some v =>
          simp only [hdf, Option.getD_some]
          have := hf nm hnm
          cases hmm : nm.2 <;> rw [hmm] at hdf this <;>
            simp_all [modelDefault, plainModelB, plainDataOptB, Bool.and_eq_true]

/-- The trees collected from a finished loop are all byte-run
consistent. -/
theorem collect_bytesOk (its : List BItem) (hinv : ItemsPlainInv its) :
    bytesOkList (its.map fun it => it.tree.getD (.blockT [] [])) = true := by
  induction its with
  | nil => rfl
  | cons it its ih =>
      simp only [List.map_cons, bytesOkList, Bool.and_eq_true]
      have hit := hinv it (List.mem_cons_self it its)
      refine ⟨?_, ih fun x hx => hinv x (List.mem_cons_of_mem it hx)⟩
      cases ht : it.tree with
      | none => rfl
      | some t => simpa [ht] using hit.2.2 t ht

/-- Array elements built from plain data are byte-run consistent. -/
theorem buildElems_bytesOk (bm : Except Err Nat → Model → Data → Except Err Tree)
    (em : Model) (hbm : BmOk bm) (hem : plainModelB em = true) :
    ∀ (ds : List Data) (ts : List Tree), (∀ x ∈ ds, plainDataB x = true) →
      buildElems bm em ds = .ok ts → bytesOkList ts = true
  | [], ts, _, h => by
      simp only [buildElems] at h
      cases h
      rfl
  | d :: ds, ts, hp, h => by
      simp only [buildElems] at h
      cases hb : buildElem bm em d with
      | error e => rw [hb] at h; simp at h
      | ok t =>
          rw [hb] at h
          cases hr : buildElems bm em ds with
          | error e => rw [hr] at h; simp at h
          | ok ts2 =>
              rw [hr] at h
              cases h
              have hdp : plainDataB d = true := hp d (List.mem_cons_self d ds)
              have ht : bytesOkB t = true := by
                unfold buildElem at hb
                split at hb
                · rename_i m t2
                  simp [plainDataB] at hdp
                · cases hu : unpackType em d with
                  | error e => rw [hu] at hb; simp at hb
                  | ok r =>
                      obtain ⟨m2, fb, d2⟩ := r
                      obtain ⟨hm2, hd2, hfb⟩ :=
                        unpackType_plain em d m2 fb d2 hem hdp hu
                      rw [hu] at hb
                      subst hfb
                      simp only [if_false, Bool.false_eq_true] at hb
                      exact hbm _ m2 d2 t hm2 hd2 hb
              simp only [bytesOkList, Bool.and_eq_true]
              exact ⟨ht, buildElems_bytesOk bm em hbm hem ds ts2
                (fun x hx => hp x (List.mem_cons_of_mem d hx)) hr⟩

/-- `Bytes._preprocess` enforces that a declared size equals the stored
data's length. -/
theorem bytesPreprocess_ok : ∀ (sz : Option Int) (d : Data) (bs : List Nat),
    bytesPreprocess sz d = .ok bs → bytesOkB (.bytesT sz bs) = true := by
  intro sz d bs h
  unfold bytesPreprocess at h
  split at h
  · cases sz with
    | none => cases h; rfl
    | some n =>
        dsimp only at h
        split at h
        · cases h
        · rename_i hne
          cases h
          simp only [bytesOkB, beq_iff_eq]
          omega
  · cases h

/-- A successful preflight means the input was the returned dict. -/
theorem blockPreflight_ok (env : SetterEnv) (clsHead : Nat)
    (fields : List (String × Model)) (d : Data) (kvs : List (String × Data))
    (h : blockPreflight env clsHead fields d = .ok kvs) : d = .dictV kvs := by
  unfold blockPreflight at h
  split at h
  · split at h
    · cases h
    · cases h
      rfl
  · cases h

/-- A successful array preprocess uses the declared or generic element
model and returns the input's elements. -/
theorem arrayPreprocess_ok (mo : Option Model) (cnt : Option Int) (gen : Option Model)
    (d : Data) (em : Model) (c : Nat) (elems : List Data)
    (h : arrayPreprocess mo cnt gen d = .ok (em, c, elems)) :
    (mo = some em ∨ gen = some em) ∧ elems = seqElems d := by
  unfold arrayPreprocess at h
  split at h
  · cases h
  · rename_i em2 hm2
    split at h
    · cases cnt with
      | none =>
          cases h
          constructor
          · cases mo with
            | some m => simp at hm2; exact Or.inl (by rw [hm2])
            | none => exact Or.inr hm2
          · rfl
      | some n =>
          dsimp only at h
          split at h
          · cases h
          · split at h
            · cases h
            · cases h
              constructor
              · cases mo with
                | some m => simp at hm2; exact Or.inl (by rw [hm2])
                | none => exact Or.inr hm2
              · rfl
    · cases h

/-- Every tree built from a plain model and plain data under a plain setter
environment is byte-run consistent. -/
theorem buildModel_bytesOk : ∀ (fuel : Nat) (env : SetterEnv) (offE : Except Err Nat)
    (m : Model) (d : Data) (t : Tree), EnvPlain env → plainModelB m = true →
    plainDataB d = true → buildModel env fuel offE m d = .ok t → bytesOkB t = true
  | 0, env, offE, m, d, t, _, _, _, h => by simp [buildModel] at h
  | fuel + 1, env, offE, m, d, t, henv, hm, hd, h => by
      have hbm : BmOk (fun o m2 d2 => buildModel env fuel o m2 d2) :=
        fun offE2 m2 d2 t2 hm2 hd2 hb2 =>
          buildModel_bytesOk fuel env offE2 m2 d2 t2 henv hm2 hd2 hb2
      cases m with
      | primM k df =>
          simp only [buildModel] at h
          cases hp : primPreprocess k d with
          | error e => rw [hp] at h; simp at h
          | ok v =>
              rw [hp] at h
              cases h
              rfl
      | bytesM sz df =>
          simp only [buildModel] at h
          cases hp : bytesPreprocess sz d with
          | error e => rw [hp] at h; simp at h
          | ok bs =>
              rw [hp] at h
              cases h
              exact bytesPreprocess_ok sz d bs hp
      | blockM cls attrs df =>
          simp only [buildModel] at h
          cases hpf : blockPreflight env (cls.headD 0) (blockFields attrs) d with
          | error e => rw [hpf] at h; simp at h
          | ok kvs =>
              rw [hpf] at h
              dsimp only at h
              have hdk : d = .dictV kvs :=
                blockPreflight_ok env (cls.headD 0) (blockFields attrs) d kvs hpf
              have hkp : plainKvsB kvs = true := by
                rw [hdk] at hd; simpa [plainDataB] using hd
              have hap : plainAttrsB attrs = true := by
                simp only [plainModelB, Bool.and_eq_true] at hm
                exact hm.1
              have hfp := blockFields_plain attrs hap
              have hinv0 := initItems_inv (blockFields attrs) kvs hfp hkp
              have hatt : ∀ its i, ItemsPlainInv its →
                  ItemsPlainInv ((buildBItem (fun o m2 d2 => buildModel env fuel o m2 d2)
                    env fuel (cls.headD 0) d) its i).1 :=
                fun its i hx =>
                  buildBItem_inv (fun o m2 d2 => buildModel env fuel o m2 d2)
                    env fuel (cls.headD 0) d its i hbm henv hx
              cases hloop : buildLoopO
                  (buildBItem (fun o m2 d2 => buildModel env fuel o m2 d2) env fuel
                    (cls.headD 0) d)
                  ((initItems (blockFields attrs) kvs).length + 1)
                  (initItems (blockFields attrs) kvs) with
              | none => rw [hloop] at h; simp at h
              | some r =>
                  rw [hloop] at h
                  cases r with
                  | error e => simp at h
                  | ok its =>
                      simp only [Except.ok.injEq] at h
                      have hi := buildLoopO_inv
                        (buildBItem (fun o m2 d2 => buildModel env fuel o m2 d2) env fuel
                          (cls.headD 0) d) hatt _ _ its hinv0 hloop
                      rw [← h]
                      simpa [bytesOkB] using collect_bytesOk its hi
      | arrayM mo cnt gen df =>
          simp only [buildModel] at h
          cases hpp : arrayPreprocess mo cnt gen d with
          | error e => rw [hpp] at h; simp at h
          | ok r =>
              obtain ⟨em, c, elems⟩ := r
              rw [hpp] at h
              dsimp only at h
              obtain ⟨hem0, helems⟩ := arrayPreprocess_ok mo cnt gen d em c elems hpp
              have hemp : plainModelB em = true := by
                simp only [plainModelB, Bool.and_eq_true] at hm
                rcases hem0 with he | he
                · have := hm.1.1
                  rw [he] at this
                  simpa [plainModelOptB] using this
                · have := hm.1.2
                  rw [he] at this
                  simpa [plainModelOptB] using this
              cases hbe : buildElems (fun o m2 d2 => buildModel env fuel o m2 d2) em elems with
              | error e => rw [hbe] at h; simp at h
              | ok ts =>
                  rw [hbe] at h
                  simp only [Except.ok.injEq] at h
                  rw [← h]
                  have hep : ∀ x ∈ elems, plainDataB x = true := by
                    rw [helems]
                    exact seqElems_plain d hd
                  simpa [bytesOkB] using
                    buildElems_bytesOk (fun o m2 d2 => buildModel env fuel o m2 d2)
                      em hbm hemp elems ts hep hbe
      | optionalM im =>
          simp only [buildModel] at h
          have himp : plainModelB im = true := by simpa [plainModelB] using hm
          split at h
          · split at h
            · cases h
              rfl
            · cases hin : buildModel env fuel (.error .internal) im d with
              | error e => rw [hin] at h; simp at h
              | ok t2 =>
                  rw [hin] at h
                  simp only [Except.ok.injEq] at h
                  rw [← h]
                  simpa [bytesOkB] using
                    buildModel_bytesOk fuel env (.error .internal) im d t2 henv himp hd hin
          · cases h
      | alignM a =>
          simp only [buildModel] at h
          split at h
          · cases h
          · split at h
            · cases h
            · cases h
              rfl

/-- C3 (amended): for every datum built from plain input data and a plain
schema under a plain setter environment, `len(get_bytes(n)) == size(n)` holds
provided every `Align` inside the result reports the same pad at its final
offset as the `_pad_amount` frozen when it was built (`alignOkB`); byte-run
size consistency is established by the build itself
(`buildModel_bytesOk`). -/
theorem c3_size_bytes_amended (env : SetterEnv) (fuel : Nat) (offE : Except Err Nat)
    (m : Model) (d : Data) (t : Tree) (off : Nat)
    (henv : EnvPlain env) (hm : plainModelB m = true) (hd : plainDataB d = true)
    (hb : buildModel env fuel offE m d = .ok t)
    (hstable : alignOkB off t = true) :
    (treeBytes t).length = sizeAt off t :=
  treeBytes_length t off (buildModel_bytesOk fuel env offE m d t henv hm hd hb) hstable

/-- C3 witness: the S4 record `{a: U8, pad: Align(4), b: U8}` builds with a
stable alignment pad, and its bytes length equals its size. -/
theorem c3_witness :
    buildModel exEnv0 5 (.ok 0) exS4M exS4D = .ok exS4T ∧
    (treeBytes exS4T).length = sizeAt 0 exS4T := by
  refine ⟨rfl, ?_⟩
  exact c3_size_bytes_amended exEnv0 5 (.ok 0) exS4M exS4D exS4T 0
    (fun c n f hf => by simp [exEnv0] at hf) rfl rfl rfl (by decide)

/-- C3 counterexample: in `Main = {f: R, pad: Align(2), z: U8}` the setter of
`f` defers until `z` is built, so `pad` freezes `_pad_amount = 1` while `f`
is still estimated at `R`'s 1 byte; the deferred setter then refines `f` to
the 2-byte subclass `R2`, after which `get_bytes()` emits 4 bytes but
`size()` recomputes 3: the claim fails on a successfully built datum. -/
theorem c3_counterexample :
    buildModel exEnvMain 10 (.ok 0) exMain exMainD = .ok exMainT ∧
    (treeBytes exMainT).length ≠ sizeAt 0 exMainT :=
  ⟨rfl, by decide⟩
